import Mathlib

/-!
Verification development for the ECS runtime of the AsciiRPG repository
(`ecs_core.py`, `ecs_systems.py`, `ecs_components.py`).

Modelling conventions:
* Python `dict`s become association lists with dict semantics
  (`dictGet`, `dictSet`, `dictDel`): assignment replaces in place or
  appends, `pop` deletes the (unique) entry.
* `EntityID` (a uuid) becomes `Nat`; `create_entity` takes the fresh
  identifier as an argument.
* Python sets (the live-entity set, query results) become lists; set
  iteration order, which is unspecified in Python, is determinized by
  the list order.  Equalities about query results are stated via
  membership, matching Python's order-insensitive set equality.
* Component instances are plain dataclasses without `__bool__`/`__len__`,
  hence always truthy; `if component:` is modelled as `isSome`.
* `float`-valued fields that the modelled code never reads numerically
  (`weight`, `spread_chance`, `ignition_chance`, `fuel_remaining`) are
  omitted; the RNG comparisons `random.random() < chance` are modelled
  as boolean oracles, and `random.randint(1, 20)` as an explicit roll
  argument (the spec prescribes a deterministic seeded roll for tests).
* The `on_entity_added` / `on_entity_removed` hooks are no-ops for every
  system in the repository; `add_component` additionally returns the
  Bool "the notification pass ran" so the first-attach rule is statable.
-/

set_option maxHeartbeats 1000000

namespace Ecs

/-- Lookup in an association list, first entry wins (Python `dict.get`). -/
def dictGet {α β : Type} [DecidableEq α] : List (α × β) → α → Option β
  | [], _ => none
  | (k, v) :: rest, a => if k = a then some v else dictGet rest a

/-- Assignment `d[a] = b` of a Python dict: replace in place if the key is
present, otherwise append at the end. -/
def dictSet {α β : Type} [DecidableEq α] : List (α × β) → α → β → List (α × β)
  | [], a, b => [(a, b)]
  | (k, v) :: rest, a, b =>
    if k = a then (a, b) :: rest else (k, v) :: dictSet rest a b

/-- Deletion `d.pop(a, None)` of a Python dict: remove the first entry with
the given key (dict keys are unique, so this is the only one). -/
def dictDel {α β : Type} [DecidableEq α] : List (α × β) → α → List (α × β)
  | [], _ => []
  | (k, v) :: rest, a => if k = a then rest else (k, v) :: dictDel rest a

/-- Component classes of `ecs_components.py` that the ECS claims exercise.
In Python the component type is the class of the instance; here it is the
constructor tag (`Comp.tag`). -/
inductive CTag where
  | position | movement | blocksMovement | movable | stats
  | playerControlled | monster | item | health
  | poisoned | onFire | blessed | cursed | wet
  | flammable | interactable | door | container | lightSource | renderable
  deriving DecidableEq, Repr

/-- Component instances (`ecs_components.py`).  Fields mirror the dataclass
fields read by the modelled systems; `float` fields that no modelled code
reads numerically (`weight`, `spread_chance`, `ignition_chance`,
`fuel_remaining`) are omitted, as is the redundant `effect_type` string that
`__post_init__` derives from the class. -/
inductive Comp where
  | position (x y roomId : Int)
  | movement (speed : Int) (canMoveDiagonally : Bool)
  | blocksMovement (blocksPlayer blocksMonsters blocksItems : Bool)
  | movable (pushDifficulty : Int) (canBePulled : Bool)
  | stats (strength dexterity constitution intelligence wisdom charisma : Int)
  | playerControlled (playerId : Int)
  | monster (monsterType : String) (challengeRating : Int)
  | item (valueCp : Int) (stackable : Bool) (maxStack gearSlots : Int)
  | health (currentHp maxHp : Int)
  | poisoned (durationRemaining intensity : Int) (source : Option Nat) (damagePerTurn : Int)
  | onFire (durationRemaining intensity : Int) (source : Option Nat) (fireDamage : Int)
  | blessed (durationRemaining intensity : Int) (source : Option Nat) (bonusAmount : Int)
  | cursed (durationRemaining intensity : Int) (source : Option Nat) (penaltyAmount : Int)
  | wet (durationRemaining intensity : Int) (source : Option Nat)
  | flammable (burnDamage fireResistance : Int)
  | interactable (interactionType : String) (requiresAdjacent canUseRepeatedly : Bool)
      (interactionCount maxInteractions : Int)
  | door (isOpen locked : Bool) (keyRequired : String) (doorType : Int)
  | container (contents : List Nat) (maxCapacity : Int) (isOpen requiresKey : Bool)
      (keyItemName : String)
  | lightSource (brightness : Int) (lit : Bool) (lightColor : Int × Int × Int)
  | renderable (asciiChar : String) (color : Int × Int × Int) (renderLayer : Int)
      (visible : Bool)
  deriving DecidableEq, Repr

/-- The Python class of a component instance (`type(component)`). -/
def Comp.tag : Comp → CTag
  | .position .. => .position
  | .movement .. => .movement
  | .blocksMovement .. => .blocksMovement
  | .movable .. => .movable
  | .stats .. => .stats
  | .playerControlled .. => .playerControlled
  | .monster .. => .monster
  | .item .. => .item
  | .health .. => .health
  | .poisoned .. => .poisoned
  | .onFire .. => .onFire
  | .blessed .. => .blessed
  | .cursed .. => .cursed
  | .wet .. => .wet
  | .flammable .. => .flammable
  | .interactable .. => .interactable
  | .door .. => .door
  | .container .. => .container
  | .lightSource .. => .lightSource
  | .renderable .. => .renderable

/-- Events of `ecs_systems.py` used by the claims. -/
inductive Event where
  | moveEvent (entity : Nat) (fromPos toPos : Int × Int)
  | movementCompleted (entity : Nat) (fromPos toPos : Int × Int)
  | entityPushed (pusher pushee : Nat) (newPosition : Int × Int)
  | damage (target : Nat) (amount : Int) (damageType : String) (source : Option Nat)
  | interactionSuccess (actor target : Nat) (interactionType : String)
  | interactionFailed (actor : Nat) (target : Option Nat) (reason : String)
  deriving DecidableEq, Repr

/-- The ECS world of `ecs_core.py` (`World.__init__`): live-entity set,
per-type component dicts, registered systems (identified here by `Nat`),
the per-tick event list, the query cache keyed by the frozenset of the
requested component types, and the update counter. -/
structure World where
  entities : List Nat
  comps : List (CTag × List (Nat × Comp))
  systems : List Nat
  events : List Event
  cache : List (Finset CTag × List Nat)
  nextUpdateId : Nat
  deriving DecidableEq

/-- Empty world (`World.__init__`). -/
def World.init : World := ⟨[], [], [], [], [], 0⟩

/-- Clear the query cache (`World._invalidate_cache`). -/
def World.invalidate_cache (w : World) : World := {w with cache := []}

/-- Create an entity (`World.create_entity`): the uuid allocation is
modelled by the caller-supplied identifier; the live set is a Python set,
so adding an already-present id is a no-op. -/
def World.create_entity (w : World) (id : Nat) : World :=
  ({w with entities := if id ∈ w.entities then w.entities else w.entities ++ [id]}).invalidate_cache

/-- Destroy an entity (`World.destroy_entity`): returns `false` if not live;
otherwise notifies systems (`on_entity_removed` is a no-op for every system
in the repository), pops the entity from every component dict, removes it
from the live set, and invalidates the cache. -/
def World.destroy_entity (w : World) (e : Nat) : Bool × World :=
  if e ∈ w.entities then
    (true,
      ({w with
          comps := w.comps.map (fun (td : CTag × List (Nat × Comp)) => (td.1, dictDel td.2 e)),
          entities := w.entities.filter (fun x => x ≠ e)}).invalidate_cache)
  else (false, w)

/-- Add a component (`World.add_component`): raises `ValueError` when the
entity is not live; otherwise stores the instance under its class,
overwriting any previous instance, invalidates the cache, and runs the
`on_entity_added` notification pass only when no instance of this type
existed (the returned `Bool` records whether that pass ran; the hooks
themselves are no-ops for every system in the repository). -/
def World.add_component (w : World) (e : Nat) (c : Comp) : Except String (World × Bool) :=
  if e ∈ w.entities then
    let t := c.tag
    let d := (dictGet w.comps t).getD []
    let old := dictGet d e
    .ok (({w with comps := dictSet w.comps t (dictSet d e c)}).invalidate_cache, old.isNone)
  else .error "Entity does not exist"

/-- Remove a component (`World.remove_component`): `false` when the type has
no store or the entity has no instance (popping with a default never
raises); on an actual removal the cache is invalidated and systems are
notified (no-op hooks).  The codomain is `Except` to make "signals
`EntityNotFound`" a statable outcome; the source never raises here, and
component instances are always truthy, so `if removed:` is `isSome`. -/
def World.remove_component (w : World) (e : Nat) (t : CTag) : Except String (Bool × World) :=
  match dictGet w.comps t with
  | none => .ok (false, w)
  | some d =>
    match dictGet d e with
    | none => .ok (false, w)
    | some _ =>
      .ok (true, ({w with comps := dictSet w.comps t (dictDel d e)}).invalidate_cache)

/-- Read a component (`World.get_component`): `none` when the type has no
store or the entity has no instance. -/
def World.get_component (w : World) (e : Nat) (t : CTag) : Option Comp :=
  match dictGet w.comps t with
  | none => none
  | some d => dictGet d e

/-- Membership test (`World.has_component`). -/
def World.has_component (w : World) (e : Nat) (t : CTag) : Bool :=
  match dictGet w.comps t with
  | none => false
  | some d => (dictGet d e).isSome

/-- Conjunction over several types (`World.has_components`). -/
def World.has_components (w : World) (e : Nat) (ts : List CTag) : Bool :=
  ts.all (w.has_component e)

/-- Keys of the component dict for one type (empty when the type is
absent from the outer dict). -/
def World.keysOf (w : World) (t : CTag) : List Nat :=
  match dictGet w.comps t with
  | none => []
  | some d => d.map Prod.fst

/-- The uncached query computation of `World.get_entities_with_components`:
seed with the first type's key set, then intersect with each further key
set (a missing type empties the result, which matches the source's early
`break`). -/
def World.rawQuery (w : World) : List CTag → List Nat
  | [] => []
  | t :: rest => rest.foldl (fun acc t' => acc.filter (fun e => e ∈ w.keysOf t')) (w.keysOf t)

/-- Query with memoization (`World.get_entities_with_components`): an empty
type list returns the empty set before touching the cache; otherwise the
frozenset of the requested types is the cache key, a hit returns the cached
copy, and a miss computes, caches and returns the result. -/
def World.get_entities_with_components (w : World) (ts : List CTag) : List Nat × World :=
  match ts with
  | [] => ([], w)
  | _ :: _ =>
    match dictGet w.cache ts.toFinset with
    | some r => (r, w)
    | none => (w.rawQuery ts, {w with cache := dictSet w.cache ts.toFinset (w.rawQuery ts)})

/-- Register a system (`World.add_system`): appended only when absent. -/
def World.add_system (w : World) (s : Nat) : World :=
  if s ∈ w.systems then w else {w with systems := w.systems ++ [s]}

/-- Unregister a system (`World.remove_system`): `list.remove` removes the
first occurrence and returns `True`, else `False`. -/
def World.remove_system (w : World) (s : Nat) : Bool × World :=
  if s ∈ w.systems then (true, {w with systems := w.systems.erase s}) else (false, w)

/-- Append an event (`World.add_event`). -/
def World.add_event (w : World) (ev : Event) : World :=
  {w with events := w.events ++ [ev]}

/-- Clear the event queue (`World.clear_events`). -/
def World.clear_events (w : World) : World := {w with events := []}

/-- Run the registered systems in order (`World.update`'s loop), with the
behaviour of each system id given by `beh`.  Exceptions raised by a system
are caught and logged in the source and the loop continues; the model's
behaviours are total.  The source iterates the live list but systems are
registered and removed only between ticks (spec section 4.3), so iterating
the snapshot is equivalent. -/
def runSystems (beh : Nat → World → World) (sys : List Nat) (w : World) : World :=
  sys.foldl (fun acc s => beh s acc) w

/-- One tick (`World.update`): bump the update counter, run every system in
registration order, then clear the events unconditionally. -/
def World.update (beh : Nat → World → World) (w : World) : World :=
  (runSystems beh w.systems {w with nextUpdateId := w.nextUpdateId + 1}).clear_events

/-- Structural invariant of every world reachable through the public
operations: the Python sets and dicts have no duplicate keys, components
are attached only to live entities and stored under their own class, and
every cache entry describes exactly the entities holding all types of its
frozenset key. -/
structure WF (w : World) : Prop where
  entities_nodup : w.entities.Nodup
  systems_nodup : w.systems.Nodup
  inner_nodup : ∀ t d, dictGet w.comps t = some d → (d.map Prod.fst).Nodup
  live : ∀ t d e c, dictGet w.comps t = some d → dictGet d e = some c → e ∈ w.entities
  tags : ∀ t d e c, dictGet w.comps t = some d → dictGet d e = some c → c.tag = t
  cache_ok : ∀ k r, dictGet w.cache k = some r →
    ∀ e, e ∈ r ↔ (k ≠ (∅ : Finset CTag) ∧ ∀ t ∈ k, e ∈ w.keysOf t)

/-- Worlds reachable from the empty world through the public surface of
`World` (any interleaving of entity/component/system/event/query calls;
`add_component` steps through its non-raising executions). -/
inductive Reach : World → Prop where
  | init : Reach World.init
  | create {w} (id : Nat) : Reach w → Reach (w.create_entity id)
  | destroy {w} (e : Nat) : Reach w → Reach (w.destroy_entity e).2
  | addComp {w w' b} (e : Nat) (c : Comp) :
      Reach w → w.add_component e c = .ok (w', b) → Reach w'
  | removeComp {w w' b} (e : Nat) (t : CTag) :
      Reach w → w.remove_component e t = .ok (b, w') → Reach w'
  | query {w} (ts : List CTag) : Reach w → Reach (w.get_entities_with_components ts).2
  | addSys {w} (s : Nat) : Reach w → Reach (w.add_system s)
  | removeSys {w} (s : Nat) : Reach w → Reach (w.remove_system s).2
  | addEv {w} (ev : Event) : Reach w → Reach (w.add_event ev)
  | clearEv {w} : Reach w → Reach w.clear_events

/-- D&D style stat modifier ladder (`StatsComponent.get_modifier`). -/
def statModifier (v : Int) : Int :=
  if v ≤ 3 then -4 else if v ≤ 5 then -3 else if v ≤ 7 then -2
  else if v ≤ 9 then -1 else if v ≤ 11 then 0 else if v ≤ 13 then 1
  else if v ≤ 15 then 2 else if v ≤ 17 then 3 else 4

/-- Store a mutated component instance back into its slot: the model of
Python's in-place field assignment on a fetched component object (note:
unlike `add_component` this does not invalidate the query cache, exactly as
in the source, where mutation never touches the cache). -/
def World.store_comp (w : World) (e : Nat) (c : Comp) : World :=
  {w with comps := (dictSet w.comps c.tag (dictSet ((dictGet w.comps c.tag).getD []) e c))}

/-- Position of an entity as the systems read it
(`get_component(e, PositionComponent).x/.y`). -/
def World.posOf (w : World) (e : Nat) : Option (Int × Int) :=
  match w.get_component e .position with
  | some (.position x y _) => some (x, y)
  | _ => none

/-- The in-place mutation `pos_comp.x = nx; pos_comp.y = ny`. -/
def World.set_position (w : World) (e : Nat) (nx ny : Int) : World :=
  match w.get_component e .position with
  | some (.position _ _ r) => w.store_comp e (.position nx ny r)
  | _ => w

/-- Does entity `b` stand at `(x, y)` (the `blocking_pos.x == x and
blocking_pos.y == y` test)? -/
def World.posAt (w : World) (b : Nat) (x y : Int) : Bool :=
  match w.posOf b with
  | some p => p.1 = x && p.2 = y
  | none => false

/-- Per-category dispatch inside `MovementSystem._is_position_blocked`: the
mover's first matching identity component selects the blocker's flag;
movers of unknown category are always blocked. -/
def blockGate (w : World) (mover : Nat) (bp bm bi : Bool) : Bool :=
  if w.has_component mover .playerControlled then bp
  else if w.has_component mover .monster then bm
  else if w.has_component mover .item then bi
  else true

/-- `MovementSystem._is_position_blocked`: scan the entities holding both
Position and BlocksMovement (queries inside systems are modelled uncached;
the cache-freshness theorem shows the memoized query has the same members),
skip the mover itself, and the first one standing at `(x, y)` decides via
its per-category flags.  The component reads cannot miss for query members;
the unreachable mismatch arm blocks. -/
def is_position_blocked (w : World) (x y : Int) (mover : Nat) : Bool :=
  match (w.rawQuery [.position, .blocksMovement]).find?
      (fun b => b ≠ mover && w.posAt b x y) with
  | none => false
  | some b =>
    match w.get_component b .blocksMovement with
    | some (.blocksMovement bp bm bi) => blockGate w mover bp bm bi
    | _ => true

/-- `MovementSystem._try_push_entity`: requires the pusher's position and
stats and the pushee's position and Movable; the push direction mirrors the
pusher's approach, the push target must not be blocked for the pushee, and
the opposed roll `d20 + strength modifier >= push_difficulty` decides.  On
success the pushee is relocated first and an `EntityPushedEvent` is
emitted; the `d20` is the explicit `roll` argument. -/
def try_push_entity (w : World) (pusher pushee : Nat) (tx ty : Int) (roll : Int) :
    Bool × World :=
  match w.posOf pusher, w.posOf pushee, w.get_component pushee .movable,
      w.get_component pusher .stats with
  | some pp, some ep, some (.movable pd _), some (.stats st _ _ _ _ _) =>
    let px := ep.1 + (tx - pp.1)
    let py := ep.2 + (ty - pp.2)
    if is_position_blocked w px py pushee then (false, w)
    else if roll + statModifier st ≥ pd then
      (true, (w.set_position pushee px py).add_event
        (.entityPushed pusher pushee (px, py)))
    else (false, w)
  | _, _, _, _ => (false, w)

/-- `MovementSystem._try_special_movement`: the first Position +
BlocksMovement entity standing at the target cell that also has a Movable
component is pushed; blockers at the cell without Movable are skipped by
the loop, and no candidate means failure. -/
def try_special_movement (w : World) (entity : Nat) (x y : Int) (roll : Int) :
    Bool × World :=
  match (w.rawQuery [.position, .blocksMovement]).find?
      (fun b => w.posAt b x y && (w.get_component b .movable).isSome) with
  | some b => try_push_entity w entity b x y roll
  | none => (false, w)

/-- `MovementSystem.process_movement` for a `MoveEvent` with destination
`toPos`: movers need a position and a MovementComponent; blocked targets
fall through to the push attempt (on push success the mover takes the
vacated cell); unblocked targets commit the move and emit a
`MovementCompletedEvent`. -/
def process_movement (w : World) (entity : Nat) (toPos : Int × Int) (roll : Int) :
    Bool × World :=
  match w.posOf entity with
  | none => (false, w)
  | some old =>
    if !(w.has_component entity .movement) then (false, w)
    else if is_position_blocked w toPos.1 toPos.2 entity then
      match try_special_movement w entity toPos.1 toPos.2 roll with
      | (true, w1) => (true, w1.set_position entity toPos.1 toPos.2)
      | (false, w1) => (false, w1)
    else
      (true, (w.set_position entity toPos.1 toPos.2).add_event
        (.movementCompleted entity old (toPos.1, toPos.2)))

/-- The status-effect component classes iterated by
`StatusEffectSystem._update_effect_durations`, in source order. -/
def statusTags : List CTag := [.poisoned, .onFire, .blessed, .cursed, .wet]

/-- The `duration_remaining` field of a status-effect instance. -/
def Comp.duration : Comp → Option Int
  | .poisoned d _ _ _ => some d
  | .onFire d _ _ _ => some d
  | .blessed d _ _ _ => some d
  | .cursed d _ _ _ => some d
  | .wet d _ _ => some d
  | _ => none

/-- In-place update of `duration_remaining`. -/
def Comp.setDuration : Comp → Int → Comp
  | .poisoned _ i s dpt, d => .poisoned d i s dpt
  | .onFire _ i s fd, d => .onFire d i s fd
  | .blessed _ i s b, d => .blessed d i s b
  | .cursed _ i s p, d => .cursed d i s p
  | .wet _ i s, d => .wet d i s
  | c, _ => c

/-- `world.add_component` as systems call it on live entities (query
members are live, so the raising branch is unreachable there). -/
def World.add_component_total (w : World) (e : Nat) (c : Comp) : World :=
  match w.add_component e c with
  | .ok (w', _) => w'
  | .error _ => w

/-- The 8 neighbour offsets in the source's `dx`/`dy` loop order. -/
def neighborOffsets : List (Int × Int) :=
  [(-1, -1), (-1, 0), (-1, 1), (0, -1), (0, 1), (1, -1), (1, 0), (1, 1)]

/-- `StatusEffectSystem._try_spread_fire`: for each neighbouring cell,
every Position + Flammable entity standing there that is not already on
fire ignites when its `random.random() < ignition_chance` draw (the
`ignite` oracle) succeeds, receiving a fresh 5-turn fire effect whose
damage is its `burn_damage` and whose source is the burning entity. -/
def try_spread_fire (w : World) (burning : Nat) (ignite : Nat → Bool) : World :=
  match w.posOf burning with
  | none => w
  | some p =>
    neighborOffsets.foldl (fun acc d =>
      (acc.rawQuery [.position, .flammable]).foldl (fun acc2 ne =>
        if acc2.posAt ne (p.1 + d.1) (p.2 + d.2) && !(acc2.has_component ne .onFire) then
          if ignite ne then
            match acc2.get_component ne .flammable with
            | some (.flammable bd _) =>
              acc2.add_component_total ne (.onFire 5 1 (some burning) bd)
            | _ => acc2
          else acc2
        else acc2) acc) w

/-- `StatusEffectSystem._process_poison`: every poisoned entity with health
whose effect is not expired takes its per-turn damage as a `DamageEvent`. -/
def process_poison (w : World) : World :=
  (w.rawQuery [.poisoned, .health]).foldl (fun acc e =>
    match acc.get_component e .poisoned with
    | some (.poisoned d _ src dpt) =>
      if d ≠ 0 then acc.add_event (.damage e dpt "poison" src) else acc
    | _ => acc) w

/-- Per-entity body of `StatusEffectSystem._process_fire`: a burning
entity whose effect is not expired takes its fire damage as a
`DamageEvent` and, when its `random.random() < spread_chance` draw (the
`spread` oracle) succeeds, tries to spread. -/
def fire_step (spread ignite : Nat → Bool) (acc : World) (e : Nat) : World :=
  match acc.get_component e .onFire with
  | some (.onFire d _ src fd) =>
    if d ≠ 0 then
      let acc1 := acc.add_event (.damage e fd "fire" src)
      if spread e then try_spread_fire acc1 e ignite else acc1
    else acc
  | _ => acc

/-- `StatusEffectSystem._process_fire`: iterate the snapshot of burning
entities with health. -/
def process_fire (w : World) (spread ignite : Nat → Bool) : World :=
  (w.rawQuery [.onFire, .health]).foldl (fire_step spread ignite) w

/-- `StatusEffectSystem._process_blessings` (`pass` in the source). -/
def process_blessings (w : World) : World := w

/-- `StatusEffectSystem._process_curses` (`pass` in the source). -/
def process_curses (w : World) : World := w

/-- Per-entity step of `_update_effect_durations`: a non-permanent
(`duration != -1`) effect instance has its duration decremented in place
and, if the decrement made it expired (`== 0`), is removed from the
entity via `world.remove_component`. -/
def update_one_duration (t : CTag) (w : World) (e : Nat) : World :=
  match w.get_component e t with
  | some c =>
    match c.duration with
    | some d =>
      if d ≠ -1 then
        let w1 := w.store_comp e (c.setDuration (d - 1))
        if d - 1 = 0 then
          match w1.remove_component e t with
          | .ok (_, w2) => w2
          | .error _ => w1
        else w1
      else w
    | none => w
  | none => w

/-- One status class of `_update_effect_durations`: snapshot the entities
currently holding the class, then decrement / expire each. -/
def durPass (t : CTag) (w : World) : World :=
  (w.rawQuery [t]).foldl (fun acc2 e => update_one_duration t acc2 e) w

/-- `StatusEffectSystem._update_effect_durations`: run the pass for each
status class in source order. -/
def update_effect_durations (w : World) : World :=
  statusTags.foldl (fun acc t => durPass t acc) w

/-- `StatusEffectSystem.update`: poison, fire, blessings, curses, then the
duration pass. -/
def status_update (spread ignite : Nat → Bool) (w : World) : World :=
  update_effect_durations (process_curses (process_blessings
    (process_fire (process_poison w) spread ignite)))

/-- One tick with `StatusEffectSystem` as the only registered system
(`World.update`): bump the counter, run the pass, clear the events. -/
def status_tick (spread ignite : Nat → Bool) (w : World) : World :=
  (status_update spread ignite {w with nextUpdateId := w.nextUpdateId + 1}).clear_events

/-- Chebyshev distance (`PositionComponent.distance_to`). -/
def distance_to (p q : Int × Int) : Int := max |p.1 - q.1| |p.2 - q.2|

/-- `InteractionSystem._are_adjacent`: both entities need positions. -/
def are_adjacent (w : World) (a b : Nat) : Bool :=
  match w.posOf a, w.posOf b with
  | some p, some q => distance_to p q ≤ 1
  | _, _ => false

/-- `InteractionSystem._find_nearby_interactable`: the first Position +
Interactable entity within Chebyshev distance 1 of the actor. -/
def find_nearby_interactable (w : World) (actor : Nat) : Option Nat :=
  match w.posOf actor with
  | none => none
  | some p =>
    (w.rawQuery [.position, .interactable]).find?
      (fun ent => match w.posOf ent with
        | some q => decide (distance_to p q ≤ 1)
        | none => false)

/-- `InteractionSystem._interact_with_door`: locked doors fail with an
event; otherwise toggle `is_open` and update the renderable glyph. -/
def interact_with_door (w : World) (actor door : Nat) : Bool × World :=
  match w.get_component door .door with
  | some (.door isOpen locked keyReq dtype) =>
    if locked then
      (false, w.add_event (.interactionFailed actor (some door) "Door is locked"))
    else
      let w1 := w.store_comp door (.door (!isOpen) locked keyReq dtype)
      let w2 :=
        match w1.get_component door .renderable with
        | some (.renderable _ color layer vis) =>
          w1.store_comp door (.renderable (if !isOpen then "-" else "+") color layer vis)
        | _ => w1
      (true, w2)
  | _ => (false, w)

/-- `InteractionSystem._interact_with_container`: key-protected containers
fail with an event; otherwise toggle `is_open`. -/
def interact_with_container (w : World) (actor cont : Nat) : Bool × World :=
  match w.get_component cont .container with
  | some (.container contents maxCap isOpen reqKey keyName) =>
    if reqKey then
      (false, w.add_event (.interactionFailed actor (some cont) "Container is locked"))
    else
      (true, w.store_comp cont (.container contents maxCap (!isOpen) reqKey keyName))
  | _ => (false, w)

/-- `InteractionSystem._interact_with_light`: toggle `lit` and recolor the
renderable (light color when lit, dim gray otherwise). -/
def interact_with_light (w : World) (actor ls : Nat) : Bool × World :=
  match w.get_component ls .lightSource with
  | some (.lightSource br lit lc) =>
    let w1 := w.store_comp ls (.lightSource br (!lit) lc)
    let w2 :=
      match w1.get_component ls .renderable with
      | some (.renderable ch _ layer vis) =>
        w1.store_comp ls (.renderable ch (if !lit then lc else (100, 100, 100)) layer vis)
      | _ => w1
    (true, w2)
  | _ => (false, w)

/-- `InteractionSystem._interact_with_altar`: bless the actor for 10 turns. -/
def interact_with_altar (w : World) (actor altar : Nat) : Bool × World :=
  (true, w.add_component_total actor (.blessed 10 1 none 1))

/-- `InteractionSystem._process_specific_interaction`: dispatch on the
interaction type string; unknown types succeed generically. -/
def process_specific_interaction (w : World) (actor target : Nat) (itype : String) :
    Bool × World :=
  if itype = "door" then interact_with_door w actor target
  else if itype = "container" then interact_with_container w actor target
  else if itype = "light_source" then interact_with_light w actor target
  else if itype = "altar" then interact_with_altar w actor target
  else (true, w)

/-- `InteractionSystem.process_interaction`: resolve the target (nearest
interactable when none given), require an Interactable component, check
adjacency when it is required, check the usage limit, dispatch, and on
success increment the usage counter in place and emit a success event. -/
def process_interaction (w : World) (actor : Nat) (target0 : Option Nat) :
    Bool × World :=
  match (match target0 with
         | some t => some t
         | none => find_nearby_interactable w actor) with
  | none => (false, w.add_event (.interactionFailed actor none "Nothing to interact with"))
  | some target =>
    match w.get_component target .interactable with
    | some (.interactable itype reqAdj canRep cnt maxInt) =>
      if reqAdj && !(are_adjacent w actor target) then
        (false, w.add_event (.interactionFailed actor (some target) "Too far away"))
      else if maxInt ≥ 0 && cnt ≥ maxInt then
        (false, w.add_event (.interactionFailed actor (some target) "No more uses"))
      else
        match process_specific_interaction w actor target itype with
        | (true, w1) =>
          (true, (w1.store_comp target
              (.interactable itype reqAdj canRep (cnt + 1) maxInt)).add_event
            (.interactionSuccess actor target itype))
        | (false, w1) => (false, w1)
    | _ => (false, w.add_event (.interactionFailed actor (some target) "Not interactable"))

/-- Concrete world for the push scenarios: mover 0 at (0, 0) with movement
and strength 16 (modifier +3), movable blocker 1 at (1, 0) with default
BlocksMovement flags and push difficulty 10, and a second movable entity 2
at (2, 0) that has no BlocksMovement component. -/
def pushWorld : World :=
  { entities := [0, 1, 2],
    comps := [
      (.position, [(0, .position 0 0 (-1)), (1, .position 1 0 (-1)), (2, .position 2 0 (-1))]),
      (.movement, [(0, .movement 1 true)]),
      (.stats, [(0, .stats 16 10 10 10 10 10)]),
      (.blocksMovement, [(1, .blocksMovement true true false)]),
      (.movable, [(1, .movable 10 false), (2, .movable 10 false)])],
    systems := [], events := [], cache := [], nextUpdateId := 0 }

/-- Concrete world for the blocked-by-non-movable scenario: mover 0 at
(0, 0) with movement, wall 1 at (1, 0) blocking every category, without a
Movable component. -/
def wallWorld : World :=
  { entities := [0, 1],
    comps := [
      (.position, [(0, .position 0 0 (-1)), (1, .position 1 0 (-1))]),
      (.movement, [(0, .movement 1 true)]),
      (.blocksMovement, [(1, .blocksMovement true true true)])],
    systems := [], events := [], cache := [], nextUpdateId := 0 }

/-- Concrete world for the fire-effect trace: entity 0 with 10/10 health
and a 3-turn fire effect dealing 2 damage per tick. -/
def fireWorld : World :=
  { entities := [0],
    comps := [(.health, [(0, .health 10 10)]), (.onFire, [(0, .onFire 3 1 none 2)])],
    systems := [], events := [], cache := [], nextUpdateId := 0 }

/-- Oracle under which no RNG draw succeeds. -/
def noDraw : Nat → Bool := fun _ => false

/-- One status-system tick of the fire-trace scenario (no RNG draw
succeeds; the scenario world has no flammable entities anyway). -/
def fireTick (w : World) : World := status_tick noDraw noDraw w

/-- Every stored component instance lies in the table of its own class
(holds in every reachable world; preserved by the status passes). -/
def TagOK (w : World) : Prop :=
  ∀ u d x c, dictGet w.comps u = some d → (x, c) ∈ d → c.tag = u

/-- Every component table has duplicate-free keys (holds in every
reachable world; preserved by the status passes). -/
def NodupKeys (w : World) : Prop := ∀ u, (w.keysOf u).Nodup

/-- Concrete world for the interaction-distance scenario: actor 0 at
(0, 0), interactable door 1 at (2, 0) (Chebyshev distance 2) requiring
adjacency. -/
def interactWorld : World :=
  { entities := [0, 1],
    comps := [
      (.position, [(0, .position 0 0 (-1)), (1, .position 2 0 (-1))]),
      (.interactable, [(1, .interactable "door" true true 0 (-1))]),
      (.door, [(1, .door false false "" 1)])],
    systems := [], events := [], cache := [], nextUpdateId := 0 }

/-- A world whose only ever-created entity 0 has already been destroyed. -/
def deadWorld : World := ((World.init.create_entity 0).destroy_entity 0).2

/-- A sample system behaviour that appends one event per invocation. -/
def pingBeh : Nat → World → World := fun s w =>
  w.add_event (.moveEvent s (0, 0) (1, 0))
@[simp] theorem dictGet_nil {α β : Type} [DecidableEq α] (a : α) :
    dictGet ([] : List (α × β)) a = none := rfl

theorem dictGet_cons {α β : Type} [DecidableEq α] (k : α) (v : β) (l : List (α × β)) (a : α) :
    dictGet ((k, v) :: l) a = if k = a then some v else dictGet l a := rfl

theorem dictGet_eq_none_of_not_mem_keys {α β : Type} [DecidableEq α]
    {l : List (α × β)} {a : α} (h : a ∉ l.map Prod.fst) : dictGet l a = none := by
  induction l with
  | nil => rfl
  | cons p rest ih =>
    obtain ⟨k, v⟩ := p
    simp only [List.map_cons, List.mem_cons, not_or] at h
    rw [dictGet_cons, if_neg (fun hk => h.1 hk.symm)]
    exact ih h.2

@[simp] theorem dictGet_dictSet_self {α β : Type} [DecidableEq α]
    (l : List (α × β)) (a : α) (b : β) : dictGet (dictSet l a b) a = some b := by
  induction l with
  | nil => simp [dictSet, dictGet]
  | cons p rest ih =>
    obtain ⟨k, v⟩ := p
    by_cases h : k = a
    · rw [dictSet, if_pos h, dictGet_cons, if_pos rfl]
    · rw [dictSet, if_neg h, dictGet_cons, if_neg h]
      exact ih

theorem dictGet_dictSet_ne {α β : Type} [DecidableEq α]
    (l : List (α × β)) (a a' : α) (b : β) (h : a' ≠ a) :
    dictGet (dictSet l a b) a' = dictGet l a' := by
  induction l with
  | nil =>
    rw [dictSet, dictGet_cons, if_neg (fun hk => h hk.symm)]
  | cons p rest ih =>
    obtain ⟨k, v⟩ := p
    by_cases hk : k = a
    · rw [dictSet, if_pos hk, dictGet_cons, dictGet_cons,
        if_neg (fun h2 => h h2.symm), hk, if_neg (fun h2 => h h2.symm)]
    · rw [dictSet, if_neg hk, dictGet_cons, dictGet_cons]
      by_cases hk' : k = a'
      · rw [if_pos hk', if_pos hk']
      · rw [if_neg hk', if_neg hk']
        exact ih

theorem dictGet_dictDel_ne {α β : Type} [DecidableEq α]
    (l : List (α × β)) (a a' : α) (h : a' ≠ a) :
    dictGet (dictDel l a) a' = dictGet l a' := by
  induction l with
  | nil => rfl
  | cons p rest ih =>
    obtain ⟨k, v⟩ := p
    by_cases hk : k = a
    · rw [dictDel, if_pos hk, dictGet_cons, if_neg (fun h2 => h (h2.symm.trans hk))]
    · rw [dictDel, if_neg hk, dictGet_cons, dictGet_cons]
      by_cases hk' : k = a'
      · rw [if_pos hk', if_pos hk']
      · rw [if_neg hk', if_neg hk']
        exact ih

theorem dictGet_dictDel_self {α β : Type} [DecidableEq α]
    (l : List (α × β)) (a : α) (hnd : (l.map Prod.fst).Nodup) :
    dictGet (dictDel l a) a = none := by
  induction l with
  | nil => rfl
  | cons p rest ih =>
    obtain ⟨k, v⟩ := p
    simp only [List.map_cons, List.nodup_cons] at hnd
    by_cases hk : k = a
    · rw [dictDel, if_pos hk]
      exact dictGet_eq_none_of_not_mem_keys (hk ▸ hnd.1)
    · rw [dictDel, if_neg hk, dictGet_cons, if_neg hk]
      exact ih hnd.2

theorem mem_of_dictGet_eq_some {α β : Type} [DecidableEq α]
    {l : List (α × β)} {a : α} {b : β} (h : dictGet l a = some b) : (a, b) ∈ l := by
  induction l with
  | nil => simp [dictGet] at h
  | cons p rest ih =>
    obtain ⟨k, v⟩ := p
    by_cases hk : k = a
    · rw [dictGet_cons, if_pos hk] at h
      cases h
      rw [← hk]
      exact List.mem_cons_self _ _
    · rw [dictGet_cons, if_neg hk] at h
      exact List.mem_cons_of_mem _ (ih h)

theorem fst_mem_of_dictGet_eq_some {α β : Type} [DecidableEq α]
    {l : List (α × β)} {a : α} {b : β} (h : dictGet l a = some b) :
    a ∈ l.map Prod.fst :=
  List.mem_map.2 ⟨(a, b), mem_of_dictGet_eq_some h, rfl⟩

theorem dictGet_isSome_of_mem_keys {α β : Type} [DecidableEq α]
    {l : List (α × β)} {a : α} (h : a ∈ l.map Prod.fst) :
    (dictGet l a).isSome := by
  induction l with
  | nil => simp at h
  | cons p rest ih =>
    obtain ⟨k, v⟩ := p
    by_cases hk : k = a
    · rw [dictGet_cons, if_pos hk]
      rfl
    · simp only [List.map_cons, List.mem_cons] at h
      rcases h with h | h
      · exact absurd h.symm hk
      · rw [dictGet_cons, if_neg hk]
        exact ih h

theorem keys_dictSet_subset {α β : Type} [DecidableEq α]
    (l : List (α × β)) (a : α) (b : β) (x : α) :
    x ∈ (dictSet l a b).map Prod.fst ↔ x ∈ l.map Prod.fst ∨ x = a := by
  induction l with
  | nil => simp [dictSet]
  | cons p rest ih =>
    obtain ⟨k, v⟩ := p
    by_cases hk : k = a
    · rw [dictSet, if_pos hk]
      subst hk
      simp only [List.map_cons, List.mem_cons]
      tauto
    · rw [dictSet, if_neg hk]
      simp only [List.map_cons, List.mem_cons, ih]
      tauto

theorem keys_dictSet_nodup {α β : Type} [DecidableEq α]
    (l : List (α × β)) (a : α) (b : β) (h : (l.map Prod.fst).Nodup) :
    ((dictSet l a b).map Prod.fst).Nodup := by
  induction l with
  | nil => simp [dictSet]
  | cons p rest ih =>
    obtain ⟨k, v⟩ := p
    simp only [List.map_cons, List.nodup_cons] at h
    by_cases hk : k = a
    · rw [dictSet, if_pos hk]
      subst hk
      simp only [List.map_cons, List.nodup_cons]
      exact ⟨h.1, h.2⟩
    · rw [dictSet, if_neg hk]
      simp only [List.map_cons, List.nodup_cons]
      refine ⟨fun hm => ?_, ih h.2⟩
      rw [keys_dictSet_subset] at hm
      rcases hm with hm | hm
      · exact h.1 hm
      · exact hk hm

theorem keys_dictDel_subset {α β : Type} [DecidableEq α]
    (l : List (α × β)) (a x : α) :
    x ∈ (dictDel l a).map Prod.fst → x ∈ l.map Prod.fst := by
  induction l with
  | nil => simp [dictDel]
  | cons p rest ih =>
    obtain ⟨k, v⟩ := p
    by_cases hk : k = a
    · rw [dictDel, if_pos hk]
      simp only [List.map_cons, List.mem_cons]
      exact fun h => Or.inr h
    · rw [dictDel, if_neg hk]
      simp only [List.map_cons, List.mem_cons]
      rintro (h | h)
      · exact Or.inl h
      · exact Or.inr (ih h)

theorem keys_dictDel_nodup {α β : Type} [DecidableEq α]
    (l : List (α × β)) (a : α) (h : (l.map Prod.fst).Nodup) :
    ((dictDel l a).map Prod.fst).Nodup := by
  induction l with
  | nil => simp [dictDel]
  | cons p rest ih =>
    obtain ⟨k, v⟩ := p
    simp only [List.map_cons, List.nodup_cons] at h
    by_cases hk : k = a
    · rw [dictDel, if_pos hk]
      exact h.2
    · rw [dictDel, if_neg hk]
      simp only [List.map_cons, List.nodup_cons]
      exact ⟨fun hm => h.1 (keys_dictDel_subset rest a k hm), ih h.2⟩

theorem dictGet_dictSet_cases {α β : Type} [DecidableEq α] {l : List (α × β)} {a x : α}
    {b y : β} (h : dictGet (dictSet l a b) x = some y) :
    (x = a ∧ y = b) ∨ (x ≠ a ∧ dictGet l x = some y) := by
  by_cases hx : x = a
  · subst hx
    rw [dictGet_dictSet_self] at h
    exact Or.inl ⟨rfl, (Option.some.injEq _ _ ▸ h).symm⟩
  · rw [dictGet_dictSet_ne _ _ _ _ hx] at h
    exact Or.inr ⟨hx, h⟩

theorem dictGet_mapVal {α β γ : Type} [DecidableEq α] (g : β → γ) (l : List (α × β)) (a : α) :
    dictGet (l.map (fun p => (p.1, g p.2))) a = (dictGet l a).map g := by
  induction l with
  | nil => rfl
  | cons p rest ih =>
    obtain ⟨k, v⟩ := p
    by_cases hk : k = a
    · simp only [List.map_cons, dictGet_cons, if_pos hk]
      rfl
    · simp only [List.map_cons, dictGet_cons, if_neg hk]
      exact ih

theorem mem_foldl_filter (w : World) (rest : List CTag) (seed : List Nat) (e : Nat) :
    e ∈ rest.foldl (fun acc t' => acc.filter (fun x => x ∈ w.keysOf t')) seed ↔
      e ∈ seed ∧ ∀ t' ∈ rest, e ∈ w.keysOf t' := by
  induction rest generalizing seed with
  | nil => simp
  | cons t rest ih =>
    simp only [List.foldl_cons, ih, List.mem_filter, decide_eq_true_eq, List.mem_cons]
    constructor
    · rintro ⟨⟨hs, ht⟩, hrest⟩
      exact ⟨hs, fun t' ht' => ht'.elim (fun h => h ▸ ht) (hrest t')⟩
    · rintro ⟨hs, hall⟩
      exact ⟨⟨hs, hall t (Or.inl rfl)⟩, fun t' ht' => hall t' (Or.inr ht')⟩

/-- Membership in the uncached query: an entity is in the result exactly
when the type list is nonempty and the entity holds every requested type. -/
theorem mem_rawQuery (w : World) (ts : List CTag) (e : Nat) :
    e ∈ w.rawQuery ts ↔ ts ≠ [] ∧ ∀ t ∈ ts, e ∈ w.keysOf t := by
  cases ts with
  | nil => simp [World.rawQuery]
  | cons t rest =>
    rw [World.rawQuery, mem_foldl_filter]
    simp only [ne_eq, List.cons_ne_nil, not_false_iff, true_and, List.mem_cons]
    constructor
    · rintro ⟨ht, hrest⟩
      exact fun t' ht' => ht'.elim (fun h => h ▸ ht) (hrest t')
    · intro hall
      exact ⟨hall t (Or.inl rfl), fun t' ht' => hall t' (Or.inr ht')⟩

theorem keysOf_mem_of_get_component {w : World} {e : Nat} {t : CTag} {c : Comp}
    (h : w.get_component e t = some c) : e ∈ w.keysOf t := by
  unfold World.get_component at h
  unfold World.keysOf
  cases hd : dictGet w.comps t with
  | none => rw [hd] at h; exact absurd h (by simp)
  | some d =>
    rw [hd] at h
    exact fst_mem_of_dictGet_eq_some h

theorem has_component_eq_isSome (w : World) (e : Nat) (t : CTag) :
    w.has_component e t = (w.get_component e t).isSome := by
  unfold World.has_component World.get_component
  cases dictGet w.comps t <;> rfl

theorem wf_init : WF World.init := by
  constructor <;> intros <;> simp_all [World.init, dictGet]

theorem wf_create {w : World} (hw : WF w) (id : Nat) : WF (w.create_entity id) := by
  obtain ⟨h1, h2, h3, h4, h5, h6⟩ := hw
  refine ⟨?_, h2, h3, ?_, h5, ?_⟩
  · by_cases hm : id ∈ w.entities
    · simpa [World.create_entity, World.invalidate_cache, hm] using h1
    · simp only [World.create_entity, World.invalidate_cache, if_neg hm]
      exact List.Nodup.append h1 (List.nodup_singleton id)
        (by simpa using fun h => hm h)
  · intro t d e c hd he
    have := h4 t d e c hd he
    by_cases hm : id ∈ w.entities <;>
      simp_all [World.create_entity, World.invalidate_cache]
  · intro k r hk
    simp [World.create_entity, World.invalidate_cache, dictGet] at hk

theorem wf_destroy {w : World} (hw : WF w) (e : Nat) : WF (w.destroy_entity e).2 := by
  obtain ⟨h1, h2, h3, h4, h5, h6⟩ := hw
  unfold World.destroy_entity
  by_cases hm : e ∈ w.entities
  · rw [if_pos hm]
    refine ⟨List.Nodup.filter _ h1, h2, ?_, ?_, ?_, ?_⟩
    · intro t d hd
      simp only [World.invalidate_cache] at hd
      rw [dictGet_mapVal (fun d => dictDel d e) w.comps t] at hd
      cases horig : dictGet w.comps t with
      | none => rw [horig] at hd; exact absurd hd (by simp)
      | some d0 =>
        rw [horig, Option.map_some'] at hd
        injection hd with hd
        exact hd ▸ keys_dictDel_nodup d0 e (h3 t d0 horig)
    · intro t d x c hd hx
      simp only [World.invalidate_cache] at hd
      rw [dictGet_mapVal (fun d => dictDel d e) w.comps t] at hd
      cases horig : dictGet w.comps t with
      | none => rw [horig] at hd; exact absurd hd (by simp)
      | some d0 =>
        rw [horig, Option.map_some'] at hd
        injection hd with hd
        subst hd
        by_cases hxe : x = e
        · subst hxe
          rw [dictGet_dictDel_self d0 x (h3 t d0 horig)] at hx
          exact absurd hx (by simp)
        · rw [dictGet_dictDel_ne d0 e x hxe] at hx
          simp only [World.invalidate_cache, List.mem_filter, decide_eq_true_eq]
          exact ⟨h4 t d0 x c horig hx, hxe⟩
    · intro t d x c hd hx
      simp only [World.invalidate_cache] at hd
      rw [dictGet_mapVal (fun d => dictDel d e) w.comps t] at hd
      cases horig : dictGet w.comps t with
      | none => rw [horig] at hd; exact absurd hd (by simp)
      | some d0 =>
        rw [horig, Option.map_some'] at hd
        injection hd with hd
        subst hd
        by_cases hxe : x = e
        · subst hxe
          rw [dictGet_dictDel_self d0 x (h3 t d0 horig)] at hx
          exact absurd hx (by simp)
        · rw [dictGet_dictDel_ne d0 e x hxe] at hx
          exact h5 t d0 x c horig hx
    · intro k r hk
      simp [World.invalidate_cache, dictGet] at hk
  · rw [if_neg hm]
    exact ⟨h1, h2, h3, h4, h5, h6⟩

theorem wf_add {w w' : World} {b : Bool} (hw : WF w) {e : Nat} {c : Comp}
    (h : w.add_component e c = .ok (w', b)) : WF w' := by
  obtain ⟨h1, h2, h3, h4, h5, h6⟩ := hw
  unfold World.add_component at h
  by_cases hm : e ∈ w.entities
  · rw [if_pos hm] at h
    simp only [Except.ok.injEq, Prod.mk.injEq] at h
    obtain ⟨hw', _⟩ := h.1, h.2
    subst hw'
    refine ⟨h1, h2, ?_, ?_, ?_, ?_⟩
    · intro t d hd
      simp only [World.invalidate_cache] at hd
      rcases dictGet_dictSet_cases hd with ⟨ht, hdv⟩ | ⟨ht, hdv⟩
      · subst hdv
        apply keys_dictSet_nodup
        cases horig : dictGet w.comps c.tag with
        | none => simp [horig]
        | some d0 => simpa [horig] using h3 _ d0 horig
      · exact h3 t d hdv
    · intro t d x cx hd hx
      simp only [World.invalidate_cache] at hd
      rcases dictGet_dictSet_cases hd with ⟨ht, hdv⟩ | ⟨ht, hdv⟩
      · subst hdv
        rcases dictGet_dictSet_cases hx with ⟨hxe, _⟩ | ⟨hxe, hxv⟩
        · exact hxe ▸ hm
        · cases horig : dictGet w.comps c.tag with
          | none => rw [horig] at hxv; exact absurd hxv (by simp [dictGet])
          | some d0 =>
            rw [horig] at hxv
            exact h4 _ d0 x cx horig hxv
      · exact h4 t d x cx hdv hx
    · intro t d x cx hd hx
      simp only [World.invalidate_cache] at hd
      rcases dictGet_dictSet_cases hd with ⟨ht, hdv⟩ | ⟨ht, hdv⟩
      · subst hdv
        rcases dictGet_dictSet_cases hx with ⟨hxe, hxc⟩ | ⟨hxe, hxv⟩
        · subst hxc; exact ht.symm
        · cases horig : dictGet w.comps c.tag with
          | none => rw [horig] at hxv; exact absurd hxv (by simp [dictGet])
          | some d0 =>
            rw [horig] at hxv
            exact (h5 _ d0 x cx horig hxv).trans ht.symm
      · exact h5 t d x cx hdv hx
    · intro k r hk
      simp [World.invalidate_cache, dictGet] at hk
  · rw [if_neg hm] at h
    exact absurd h (by simp)

theorem wf_remove {w w' : World} {b : Bool} (hw : WF w) {e : Nat} {t : CTag}
    (h : w.remove_component e t = .ok (b, w')) : WF w' := by
  obtain ⟨h1, h2, h3, h4, h5, h6⟩ := hw
  unfold World.remove_component at h
  split at h
  · simp only [Except.ok.injEq, Prod.mk.injEq] at h
    exact h.2 ▸ ⟨h1, h2, h3, h4, h5, h6⟩
  · rename_i d hd
    split at h
    · simp only [Except.ok.injEq, Prod.mk.injEq] at h
      exact h.2 ▸ ⟨h1, h2, h3, h4, h5, h6⟩
    · rename_i c0 he
      simp only [Except.ok.injEq, Prod.mk.injEq] at h
      have hw' := h.2
      subst hw'
      refine ⟨h1, h2, ?_, ?_, ?_, ?_⟩
      · intro t' d' hd'
        simp only [World.invalidate_cache] at hd'
        rcases dictGet_dictSet_cases hd' with ⟨ht, hdv⟩ | ⟨ht, hdv⟩
        · exact hdv ▸ keys_dictDel_nodup d e (h3 t d hd)
        · exact h3 t' d' hdv
      · intro t' d' x cx hd' hx
        simp only [World.invalidate_cache] at hd'
        rcases dictGet_dictSet_cases hd' with ⟨ht, hdv⟩ | ⟨ht, hdv⟩
        · subst hdv
          by_cases hxe : x = e
          · subst hxe
            rw [dictGet_dictDel_self d x (h3 t d hd)] at hx
            exact absurd hx (by simp)
          · rw [dictGet_dictDel_ne d e x hxe] at hx
            exact h4 t d x cx hd hx
        · exact h4 t' d' x cx hdv hx
      · intro t' d' x cx hd' hx
        simp only [World.invalidate_cache] at hd'
        rcases dictGet_dictSet_cases hd' with ⟨ht, hdv⟩ | ⟨ht, hdv⟩
        · subst hdv
          by_cases hxe : x = e
          · subst hxe
            rw [dictGet_dictDel_self d x (h3 t d hd)] at hx
            exact absurd hx (by simp)
          · rw [dictGet_dictDel_ne d e x hxe] at hx
            exact (h5 t d x cx hd hx).trans ht.symm
        · exact h5 t' d' x cx hdv hx
      · intro k r hk
        simp [World.invalidate_cache, dictGet] at hk

theorem wf_query {w : World} (hw : WF w) (ts : List CTag) :
    WF (w.get_entities_with_components ts).2 := by
  obtain ⟨h1, h2, h3, h4, h5, h6⟩ := hw
  cases ts with
  | nil => exact ⟨h1, h2, h3, h4, h5, h6⟩
  | cons t rest =>
    have hdef : w.get_entities_with_components (t :: rest) =
        match dictGet w.cache (t :: rest).toFinset with
        | some r => (r, w)
        | none => (w.rawQuery (t :: rest),
            {w with cache := dictSet w.cache (t :: rest).toFinset (w.rawQuery (t :: rest))}) := rfl
    rw [hdef]
    cases hc : dictGet w.cache (t :: rest).toFinset with
    | some r => exact ⟨h1, h2, h3, h4, h5, h6⟩
    | none =>
      refine ⟨h1, h2, h3, h4, h5, ?_⟩
      intro k r hk
      rcases dictGet_dictSet_cases hk with ⟨hkk, hrv⟩ | ⟨hkk, hrv⟩
      · subst hkk hrv
        intro e
        rw [mem_rawQuery]
        constructor
        · rintro ⟨-, hall⟩
          refine ⟨by simp, fun t' ht' => ?_⟩
          rw [List.mem_toFinset] at ht'
          exact hall t' ht'
        · rintro ⟨-, hall⟩
          exact ⟨by simp, fun t' ht' => hall t' (List.mem_toFinset.2 ht')⟩
      · exact h6 k r hrv

theorem wf_add_system {w : World} (hw : WF w) (s : Nat) : WF (w.add_system s) := by
  obtain ⟨h1, h2, h3, h4, h5, h6⟩ := hw
  unfold World.add_system
  by_cases hm : s ∈ w.systems
  · rw [if_pos hm]; exact ⟨h1, h2, h3, h4, h5, h6⟩
  · rw [if_neg hm]
    exact ⟨h1, List.Nodup.append h2 (List.nodup_singleton s)
      (by simpa using fun h => hm h), h3, h4, h5, h6⟩

theorem wf_remove_system {w : World} (hw : WF w) (s : Nat) : WF (w.remove_system s).2 := by
  obtain ⟨h1, h2, h3, h4, h5, h6⟩ := hw
  unfold World.remove_system
  by_cases hm : s ∈ w.systems
  · rw [if_pos hm]
    exact ⟨h1, h2.erase s, h3, h4, h5, h6⟩
  · rw [if_neg hm]; exact ⟨h1, h2, h3, h4, h5, h6⟩

theorem wf_add_event {w : World} (hw : WF w) (ev : Event) : WF (w.add_event ev) := by
  obtain ⟨h1, h2, h3, h4, h5, h6⟩ := hw
  exact ⟨h1, h2, h3, h4, h5, h6⟩

theorem wf_clear_events {w : World} (hw : WF w) : WF w.clear_events := by
  obtain ⟨h1, h2, h3, h4, h5, h6⟩ := hw
  exact ⟨h1, h2, h3, h4, h5, h6⟩

/-- Every reachable world satisfies the structural invariant. -/
theorem reach_wf {w : World} (hw : Reach w) : WF w := by
  induction hw with
  | init => exact wf_init
  | create id _ ih => exact wf_create ih id
  | destroy e _ ih => exact wf_destroy ih e
  | addComp e c _ h ih => exact wf_add ih h
  | removeComp e t _ h ih => exact wf_remove ih h
  | query ts _ ih => exact wf_query ih ts
  | addSys s _ ih => exact wf_add_system ih s
  | removeSys s _ ih => exact wf_remove_system ih s
  | addEv ev _ ih => exact wf_add_event ih ev
  | clearEv _ ih => exact wf_clear_events ih

theorem get_entities_cons_def (w : World) (t : CTag) (rest : List CTag) :
    w.get_entities_with_components (t :: rest) =
      match dictGet w.cache (t :: rest).toFinset with
      | some r => (r, w)
      | none => (w.rawQuery (t :: rest),
          {w with cache := dictSet w.cache (t :: rest).toFinset (w.rawQuery (t :: rest))}) := rfl

/-- A cache hit or miss returns the same members as the uncached
recomputation on the current state: the memoized query is never stale. -/
theorem mem_get_entities_iff_rawQuery {w : World} (hw : WF w) (ts : List CTag) (e : Nat) :
    e ∈ (w.get_entities_with_components ts).1 ↔ e ∈ w.rawQuery ts := by
  cases ts with
  | nil => exact Iff.rfl
  | cons t rest =>
    rw [get_entities_cons_def]
    cases hc : dictGet w.cache (t :: rest).toFinset with
    | some r =>
      have hch := hw.cache_ok _ r hc e
      rw [mem_rawQuery]
      simp only at hch ⊢
      rw [hch]
      constructor
      · rintro ⟨-, hall⟩
        exact ⟨by simp, fun t' ht' => hall t' (List.mem_toFinset.2 ht')⟩
      · rintro ⟨-, hall⟩
        exact ⟨by simp, fun t' ht' => hall t' (List.mem_toFinset.1 ht')⟩
    | none => exact Iff.rfl

theorem get_entities_snd_comps (w : World) (ts : List CTag) :
    (w.get_entities_with_components ts).2.comps = w.comps := by
  cases ts with
  | nil => rfl
  | cons t rest =>
    rw [get_entities_cons_def]
    cases dictGet w.cache (t :: rest).toFinset <;> rfl

theorem get_entities_snd_entities (w : World) (ts : List CTag) :
    (w.get_entities_with_components ts).2.entities = w.entities := by
  cases ts with
  | nil => rfl
  | cons t rest =>
    rw [get_entities_cons_def]
    cases dictGet w.cache (t :: rest).toFinset <;> rfl

theorem keysOf_congr {w w' : World} (h : w'.comps = w.comps) (t : CTag) :
    w'.keysOf t = w.keysOf t := by
  unfold World.keysOf
  rw [h]

theorem rawQuery_congr {w w' : World} (h : w'.comps = w.comps) (ts : List CTag) :
    w'.rawQuery ts = w.rawQuery ts := by
  cases ts with
  | nil => rfl
  | cons t rest =>
    unfold World.rawQuery
    simp only [keysOf_congr h]

theorem mem_keysOf_iff_has (w : World) (e : Nat) (t : CTag) :
    e ∈ w.keysOf t ↔ w.has_component e t = true := by
  unfold World.keysOf World.has_component
  cases dictGet w.comps t with
  | none => simp
  | some d =>
    constructor
    · intro h
      simpa using dictGet_isSome_of_mem_keys h
    · intro h
      simp only [Option.isSome_iff_exists] at h
      obtain ⟨c, hc⟩ := h
      exact fst_mem_of_dictGet_eq_some hc

theorem live_of_mem_keysOf {w : World} (hw : WF w) {e : Nat} {t : CTag}
    (h : e ∈ w.keysOf t) : e ∈ w.entities := by
  unfold World.keysOf at h
  cases hd : dictGet w.comps t with
  | none => rw [hd] at h; simp at h
  | some d =>
    rw [hd] at h
    have := dictGet_isSome_of_mem_keys h
    rw [Option.isSome_iff_exists] at this
    obtain ⟨c, hc⟩ := this
    exact hw.live t d e c hd hc

/-- C1: for every reachable World (any interleaving of `create_entity`,
`destroy_entity`, `add_component`, `remove_component` and the other public
calls) and all component types `A`, `B`: running `query(A)`, then `query(B)`,
then `query(A, B)` — each call threading the cache filled by the previous
one — the last result is exactly the intersection of the first two; every
query call returns exactly the uncached recomputation on the state at the
moment of the call (the cache never yields a stale result); and the members
of `query(A, B)` are live entities holding both component types. -/
theorem C1_query_intersection_no_stale (w : World) (hw : Reach w) (A B : CTag)
    (ts : List CTag) :
    (∀ e, e ∈ (w.get_entities_with_components ts).1 ↔ e ∈ w.rawQuery ts) ∧
    (∀ e,
      e ∈ (((w.get_entities_with_components [A]).2.get_entities_with_components
            [B]).2.get_entities_with_components [A, B]).1 ↔
      (e ∈ (w.get_entities_with_components [A]).1 ∧
       e ∈ ((w.get_entities_with_components [A]).2.get_entities_with_components [B]).1)) ∧
    (∀ e, e ∈ (w.get_entities_with_components [A, B]).1 →
      e ∈ w.entities ∧ w.has_component e A = true ∧ w.has_component e B = true) := by
  have hwf := reach_wf hw
  have hw1 : Reach (w.get_entities_with_components [A]).2 := Reach.query [A] hw
  have hwf1 := reach_wf hw1
  have hw2 : Reach ((w.get_entities_with_components [A]).2.get_entities_with_components
      [B]).2 := Reach.query [B] hw1
  have hwf2 := reach_wf hw2
  have hc1 : (w.get_entities_with_components [A]).2.comps = w.comps :=
    get_entities_snd_comps w [A]
  have hc2 : ((w.get_entities_with_components [A]).2.get_entities_with_components
      [B]).2.comps = w.comps :=
    (get_entities_snd_comps _ [B]).trans hc1
  refine ⟨fun e => mem_get_entities_iff_rawQuery hwf ts e, fun e => ?_, fun e he => ?_⟩
  · rw [mem_get_entities_iff_rawQuery hwf2, mem_get_entities_iff_rawQuery hwf,
      mem_get_entities_iff_rawQuery hwf1, rawQuery_congr hc2, rawQuery_congr hc1,
      mem_rawQuery, mem_rawQuery, mem_rawQuery]
    constructor
    · rintro ⟨-, hall⟩
      exact ⟨⟨by simp, fun t ht => by
        rcases List.mem_singleton.1 ht with rfl
        exact hall t (by simp)⟩,
        ⟨by simp, fun t ht => by
          rcases List.mem_singleton.1 ht with rfl
          exact hall t (by simp)⟩⟩
    · rintro ⟨⟨-, hA⟩, ⟨-, hB⟩⟩
      refine ⟨by simp, fun t ht => ?_⟩
      rcases List.mem_cons.1 ht with rfl | ht
      · exact hA t (by simp)
      · rcases List.mem_singleton.1 ht with rfl
        exact hB t (by simp)
  · rw [mem_get_entities_iff_rawQuery hwf, mem_rawQuery] at he
    obtain ⟨-, hall⟩ := he
    have hA := hall A (by simp)
    have hB := hall B (by simp)
    exact ⟨live_of_mem_keysOf hwf hA, (mem_keysOf_iff_has w e A).1 hA,
      (mem_keysOf_iff_has w e B).1 hB⟩

/-- Witness for C1 at a concrete reachable world: two entities, entity 0
holding position and movement, entity 1 holding only position. -/
theorem C1_witness :
    0 ∈ ((((World.init.create_entity 0).create_entity 1).get_entities_with_components
        [CTag.position]).1) ↔
      0 ∈ ((World.init.create_entity 0).create_entity 1).rawQuery [CTag.position] := by
  have hreach : Reach ((World.init.create_entity 0).create_entity 1) :=
    Reach.create 1 (Reach.create 0 Reach.init)
  exact (C1_query_intersection_no_stale _ hreach CTag.position CTag.movement
    [CTag.position]).1 0


/-- C2: destroying a live entity returns `true` and drops all its
components before returning: afterwards `has_component` is `false` for
every component type and the entity is absent from every query result on
the resulting world; destroying a non-live entity returns `false` and is a
no-op. -/
theorem C2_destroy_entity (w : World) (hw : Reach w) (e : Nat) :
    (e ∈ w.entities →
      (w.destroy_entity e).1 = true ∧
      (∀ t, (w.destroy_entity e).2.has_component e t = false) ∧
      (∀ ts, e ∉ ((w.destroy_entity e).2.get_entities_with_components ts).1)) ∧
    (e ∉ w.entities → w.destroy_entity e = (false, w)) := by
  have hwf := reach_wf hw
  constructor
  · intro he
    have hkeys : ∀ t, e ∉ (w.destroy_entity e).2.keysOf t := by
      intro t hmem
      unfold World.keysOf at hmem
      have hcomps : (w.destroy_entity e).2.comps
          = w.comps.map (fun (td : CTag × List (Nat × Comp)) => (td.1, dictDel td.2 e)) := by
        unfold World.destroy_entity
        rw [if_pos he]
        rfl
      rw [hcomps, dictGet_mapVal (fun d => dictDel d e) w.comps t] at hmem
      cases horig : dictGet w.comps t with
      | none => rw [horig] at hmem; simp at hmem
      | some d0 =>
        rw [horig, Option.map_some'] at hmem
        have := dictGet_isSome_of_mem_keys hmem
        rw [dictGet_dictDel_self d0 e (hwf.inner_nodup t d0 horig)] at this
        simp at this
    refine ⟨by unfold World.destroy_entity; rw [if_pos he], ?_, ?_⟩
    · intro t
      have := hkeys t
      rw [mem_keysOf_iff_has] at this
      simpa using this
    · intro ts hmem
      have hwf' : WF (w.destroy_entity e).2 := wf_destroy hwf e
      rw [mem_get_entities_iff_rawQuery hwf' ts, mem_rawQuery] at hmem
      obtain ⟨hne, hall⟩ := hmem
      cases ts with
      | nil => exact hne rfl
      | cons t rest => exact hkeys t (hall t (by simp))
  · intro he
    unfold World.destroy_entity
    rw [if_neg he]

/-- Witness for C2 on a concrete reachable world with one live entity. -/
theorem C2_witness :
    ((World.init.create_entity 0).destroy_entity 0).1 = true ∧
    (((World.init.create_entity 0).destroy_entity 0).2.has_component 0 CTag.health
      = false) ∧
    (World.init.create_entity 0).destroy_entity 1 = (false, World.init.create_entity 0) := by
  have h := C2_destroy_entity (World.init.create_entity 0)
    (Reach.create 0 Reach.init) 0
  have h1 := C2_destroy_entity (World.init.create_entity 0)
    (Reach.create 0 Reach.init) 1
  obtain ⟨hl, -⟩ := h
  have hlive : 0 ∈ (World.init.create_entity 0).entities := by decide
  obtain ⟨ha, hb, -⟩ := hl hlive
  exact ⟨ha, hb CTag.health, h1.2 (by decide)⟩

theorem get_component_eq_getD (w : World) (e : Nat) (t : CTag) :
    w.get_component e t = dictGet ((dictGet w.comps t).getD []) e := by
  unfold World.get_component
  cases dictGet w.comps t <;> rfl

/-- Evaluation of `add_component` on a live entity: the instance is stored
under its class (overwriting in place), the cache is invalidated, and the
notification pass runs exactly when no previous instance existed. -/
theorem add_component_of_mem {w : World} {e : Nat} (he : e ∈ w.entities) (c : Comp) :
    w.add_component e c = .ok
      (({w with comps := (dictSet w.comps c.tag
          (dictSet ((dictGet w.comps c.tag).getD []) e c))}).invalidate_cache,
        (w.get_component e c.tag).isNone) := by
  unfold World.add_component
  rw [if_pos he, get_component_eq_getD]

/-- C3: adding a component to a live entity stores exactly it
(`get_component` returns it); a second add of the same type overwrites the
stored instance in place, leaving exactly one instance of the type on the
entity, and the "entity now matches" notification pass runs on the first
attach only, never on the overwrite. -/
theorem C3_add_component_overwrite (w : World) (hw : Reach w) (e : Nat)
    (he : e ∈ w.entities) (c c2 : Comp) (htag : c2.tag = c.tag)
    (hnone : w.get_component e c.tag = none) :
    (∃ p, w.add_component e c = .ok p) ∧
    (∀ w1 n1, w.add_component e c = .ok (w1, n1) →
      n1 = true ∧
      w1.get_component e c.tag = some c ∧
      (∃ p, w1.add_component e c2 = .ok p) ∧
      (∀ w2 n2, w1.add_component e c2 = .ok (w2, n2) →
        n2 = false ∧
        w2.get_component e c.tag = some c2 ∧
        (((dictGet w2.comps c.tag).getD []).map Prod.fst).count e = 1)) := by
  have hwf := reach_wf hw
  have hd0nd : (((dictGet w.comps c.tag).getD []).map Prod.fst).Nodup := by
    cases horig : dictGet w.comps c.tag with
    | none => simp
    | some d0 => simpa [horig] using hwf.inner_nodup _ d0 horig
  constructor
  · rw [add_component_of_mem he c]
    exact ⟨_, rfl⟩
  · intro w1 n1 h1
    rw [add_component_of_mem he c] at h1
    simp only [Except.ok.injEq, Prod.mk.injEq] at h1
    obtain ⟨hw1, hn1⟩ := h1
    have hw1e : w1.entities = w.entities := by rw [← hw1]; rfl
    have hw1c : w1.comps
        = dictSet w.comps c.tag (dictSet ((dictGet w.comps c.tag).getD []) e c) := by
      rw [← hw1]; rfl
    have hget1 : w1.get_component e c.tag = some c := by
      rw [get_component_eq_getD, hw1c, dictGet_dictSet_self]
      simp only [Option.getD_some, dictGet_dictSet_self]
    have he1 : e ∈ w1.entities := hw1e ▸ he
    have hd1 : dictGet w1.comps c.tag
        = some (dictSet ((dictGet w.comps c.tag).getD []) e c) := by
      rw [hw1c, dictGet_dictSet_self]
    refine ⟨by rw [← hn1, hnone]; rfl, hget1, ?_, ?_⟩
    · rw [add_component_of_mem he1 c2]
      exact ⟨_, rfl⟩
    · intro w2 n2 h2
      rw [add_component_of_mem he1 c2] at h2
      simp only [Except.ok.injEq, Prod.mk.injEq] at h2
      obtain ⟨hw2, hn2⟩ := h2
      have hw2c : w2.comps = dictSet w1.comps c2.tag
          (dictSet ((dictGet w1.comps c2.tag).getD []) e c2) := by
        rw [← hw2]; rfl
      refine ⟨?_, ?_, ?_⟩
      · rw [← hn2, htag, hget1]
        rfl
      · rw [get_component_eq_getD, hw2c, htag, dictGet_dictSet_self]
        simp only [Option.getD_some, dictGet_dictSet_self]
      · rw [hw2c, htag, dictGet_dictSet_self]
        simp only [Option.getD_some, hd1]
        have hnd2 : ((dictSet (dictSet ((dictGet w.comps c.tag).getD []) e c) e c2).map
            Prod.fst).Nodup :=
          keys_dictSet_nodup _ e c2 (keys_dictSet_nodup _ e c hd0nd)
        have hmem2 : e ∈ (dictSet (dictSet ((dictGet w.comps c.tag).getD []) e c) e c2).map
            Prod.fst :=
          (keys_dictSet_subset _ e c2 e).2 (Or.inr rfl)
        exact List.count_eq_one_of_mem hnd2 hmem2

/-- Witness for C3: first attach and overwrite of a position component on
the single live entity of a small reachable world. -/
theorem C3_witness :
    ∃ p, (World.init.create_entity 5).add_component 5 (Comp.position 1 2 0) = .ok p ∧
      p.2 = true ∧ p.1.get_component 5 CTag.position = some (Comp.position 1 2 0) := by
  have h := C3_add_component_overwrite (World.init.create_entity 5)
    (Reach.create 5 Reach.init) 5 (by decide) (Comp.position 1 2 0) (Comp.position 3 4 0)
    (by decide) (by decide)
  obtain ⟨⟨w1, n1⟩, hp⟩ := h.1
  obtain ⟨hn1, hget, -, -⟩ := h.2 w1 n1 hp
  exact ⟨(w1, n1), hp, hn1, hget⟩

/-- C7 (amended): `add_component` on a non-live entity fails loudly with
the `EntityNotFound`-style `ValueError`; `remove_component` on a non-live
entity does not raise — it returns the ordinary value `false` (in a
reachable world a dead entity holds no components); and absent-component
lookups answer `none` / `false` (`has_component` agrees with
`get_component`'s `isSome`) instead of erroring. -/
theorem C7_dead_entity_errors (w : World) (hw : Reach w) (e : Nat)
    (he : e ∉ w.entities) (c : Comp) (t : CTag) :
    w.add_component e c = .error "Entity does not exist" ∧
    w.remove_component e t = .ok (false, w) ∧
    (∀ x u, w.has_component x u = (w.get_component x u).isSome) := by
  have hwf := reach_wf hw
  refine ⟨?_, ?_, fun x u => has_component_eq_isSome w x u⟩
  · unfold World.add_component
    rw [if_neg he]
  · unfold World.remove_component
    split
    · rfl
    · rename_i d hd
      split
      · rfl
      · rename_i c0 hde
        exact absurd (hwf.live t d e c0 hd hde) he

/-- Witness for C7 on the concrete reachable dead-entity world. -/
theorem C7_witness :
    deadWorld.add_component 0 (Comp.health 5 5) = .error "Entity does not exist" ∧
    deadWorld.remove_component 0 CTag.position = .ok (false, deadWorld) := by
  have h := C7_dead_entity_errors deadWorld
    (Reach.destroy 0 (Reach.create 0 Reach.init)) 0 (by decide)
    (Comp.health 5 5) CTag.position
  exact ⟨h.1, h.2.1⟩

/-- C7 counterexample to the claim as stated: in the reachable world whose
only entity 0 has been destroyed, `remove_component` on the dead entity
returns the ordinary value `false` — it does not signal `EntityNotFound`
(the source's `pop(entity, None)` never raises, and only `add_component`
checks liveness). -/
theorem C7_counterexample :
    deadWorld.remove_component 0 CTag.position = .ok (false, deadWorld) ∧
    0 ∉ deadWorld.entities := by
  constructor
  · rfl
  · decide

/-- C10: `add_system` is idempotent — adding an already-registered system
leaves the world unchanged; in every reachable world a registered system
occurs exactly once in the system list, and one `update` tick invokes it
exactly once, at its unique position in registration order. -/
theorem C10_add_system_once (w : World) (hw : Reach w) (s : Nat)
    (hs : s ∈ w.systems) :
    w.add_system s = w ∧
    w.systems.count s = 1 ∧
    (∀ beh, ∃ l1 l2, w.systems = l1 ++ s :: l2 ∧ s ∉ l1 ∧ s ∉ l2 ∧
      World.update beh w = (runSystems beh l2 (beh s (runSystems beh l1
        {w with nextUpdateId := w.nextUpdateId + 1}))).clear_events) := by
  have hnd := (reach_wf hw).systems_nodup
  refine ⟨by unfold World.add_system; rw [if_pos hs], List.count_eq_one_of_mem hnd hs, ?_⟩
  intro beh
  obtain ⟨l1, l2, hsplit⟩ := List.append_of_mem hs
  have hnd' := hsplit ▸ hnd
  rw [List.nodup_append] at hnd'
  obtain ⟨-, hnd2, hdisj⟩ := hnd'
  rw [List.nodup_cons] at hnd2
  refine ⟨l1, l2, hsplit, fun hmem => hdisj hmem (by simp), hnd2.1, ?_⟩
  unfold World.update runSystems
  rw [hsplit, List.foldl_append, List.foldl_cons]

/-- Witness for C10 on a concrete reachable world with one system. -/
theorem C10_witness :
    (World.init.add_system 3).add_system 3 = World.init.add_system 3 ∧
    (World.init.add_system 3).systems.count 3 = 1 := by
  have h := C10_add_system_once (World.init.add_system 3)
    (Reach.addSys 3 Reach.init) 3 (by decide)
  exact ⟨h.1, h.2.1⟩

theorem runSystems_events_append (beh : Nat → World → World)
    (happ : ∀ s w', ∃ new, (beh s w').events = w'.events ++ new)
    (l : List Nat) (w0 : World) :
    ∃ new, (runSystems beh l w0).events = w0.events ++ new := by
  induction l generalizing w0 with
  | nil => exact ⟨[], by simp [runSystems]⟩
  | cons s l ih =>
    obtain ⟨new1, h1⟩ := ih (beh s w0)
    obtain ⟨new0, h0⟩ := happ s w0
    exact ⟨new0 ++ new1, by
      unfold runSystems at h1 ⊢
      rw [List.foldl_cons, h1, h0, List.append_assoc]⟩

/-- C4: when every system only appends to the event queue (which is how
`world.add_event` is used), then after running any prefix of the tick's
systems the queue equals the tick-start queue extended by exactly the
events appended by the systems already run — an event enqueued at some
scheduler position is in the queue for every later system and was at no
earlier position — and after the last system the queue is cleared
unconditionally, so no event of tick n is visible in tick n+1 and the
queue is empty when the next tick starts. -/
theorem C4_event_visibility (beh : Nat → World → World)
    (happ : ∀ s w', ∃ new, (beh s w').events = w'.events ++ new) (w : World) :
    (World.update beh w).events = [] ∧
    (∀ pre suf, w.systems = pre ++ suf →
      ∃ new, (runSystems beh pre {w with nextUpdateId := w.nextUpdateId + 1}).events
        = w.events ++ new) := by
  constructor
  · rfl
  · intro pre suf hsplit
    exact runSystems_events_append beh happ pre _

/-- Witness for C4 with an event-appending behaviour on a concrete world. -/
theorem C4_witness :
    (World.update pingBeh ((World.init.add_system 1).add_system 2)).events = [] := by
  have h := C4_event_visibility pingBeh
    (fun s w' => ⟨[.moveEvent s (0, 0) (1, 0)], rfl⟩)
    ((World.init.add_system 1).add_system 2)
  exact h.1

theorem find_first_of_unique {α : Type} {p : α → Bool} {l : List α} {b : α}
    (hb : b ∈ l) (hpb : p b = true)
    (huniq : ∀ x ∈ l, p x = true → x = b) : l.find? p = some b := by
  induction l with
  | nil => simp at hb
  | cons a l ih =>
    by_cases hpa : p a = true
    · have hab : a = b := huniq a (by simp) hpa
      rw [List.find?_cons_of_pos _ hpa, hab]
    · have hpa' : p a = false := by
        cases h : p a
        · rfl
        · exact absurd h hpa
      have hba : b ∈ l := by
        rcases List.mem_cons.1 hb with rfl | h
        · exact absurd hpb hpa
        · exact h
      rw [List.find?_cons_of_neg _ (by simp [hpa'])]
      exact ih hba (fun x hx hpx => huniq x (List.mem_cons_of_mem _ hx) hpx)

theorem posAt_of_posOf {w : World} {b : Nat} {x y : Int}
    (h : w.posOf b = some (x, y)) : w.posAt b x y = true := by
  unfold World.posAt
  rw [h]
  simp

theorem get_position_of_posOf {w : World} {e : Nat} {p : Int × Int}
    (h : w.posOf e = some p) :
    ∃ r, w.get_component e .position = some (.position p.1 p.2 r) := by
  unfold World.posOf at h
  cases hg : w.get_component e .position with
  | none => rw [hg] at h; exact absurd h (by simp)
  | some c =>
    rw [hg] at h
    cases c
    case position px py pr =>
      simp only [Option.some.injEq] at h
      subst h
      exact ⟨pr, rfl⟩
    all_goals simp at h

theorem mem_rawQuery_pair {w : World} {o : Nat} {t1 t2 : CTag} {c1 c2 : Comp}
    (h1 : w.get_component o t1 = some c1) (h2 : w.get_component o t2 = some c2) :
    o ∈ w.rawQuery [t1, t2] := by
  rw [mem_rawQuery]
  refine ⟨by simp, fun t ht => ?_⟩
  rcases List.mem_cons.1 ht with rfl | ht
  · exact keysOf_mem_of_get_component h1
  · rcases List.mem_singleton.1 ht with rfl
    exact keysOf_mem_of_get_component h2

theorem get_store_comp (w : World) (e : Nat) (c : Comp) (x : Nat) (u : CTag) :
    (w.store_comp e c).get_component x u =
      if u = c.tag then (if x = e then some c else w.get_component x u)
      else w.get_component x u := by
  by_cases hu : u = c.tag
  · subst hu
    rw [if_pos rfl, get_component_eq_getD, get_component_eq_getD]
    unfold World.store_comp
    simp only [dictGet_dictSet_self, Option.getD_some]
    by_cases hx : x = e
    · subst hx
      rw [if_pos rfl, dictGet_dictSet_self]
    · rw [if_neg hx, dictGet_dictSet_ne _ _ _ _ hx]
  · rw [if_neg hu, get_component_eq_getD, get_component_eq_getD]
    unfold World.store_comp
    rw [dictGet_dictSet_ne _ _ _ _ hu]

theorem events_store_comp (w : World) (e : Nat) (c : Comp) :
    (w.store_comp e c).events = w.events := rfl

theorem get_component_add_event (w : World) (ev : Event) (x : Nat) (u : CTag) :
    (w.add_event ev).get_component x u = w.get_component x u := rfl

theorem posOf_add_event (w : World) (ev : Event) (x : Nat) :
    (w.add_event ev).posOf x = w.posOf x := rfl

theorem set_position_eq_store {w : World} {e : Nat} {p : Int × Int} {r : Int}
    (hg : w.get_component e .position = some (.position p.1 p.2 r)) (nx ny : Int) :
    w.set_position e nx ny = w.store_comp e (.position nx ny r) := by
  unfold World.set_position
  rw [hg]

theorem posOf_store_position (w : World) (e : Nat) (nx ny r : Int) :
    (w.store_comp e (.position nx ny r)).posOf e = some (nx, ny) := by
  unfold World.posOf
  rw [get_store_comp]
  simp [Comp.tag]

theorem posOf_set_position_self {w : World} {e : Nat} {p : Int × Int}
    (h : w.posOf e = some p) (nx ny : Int) :
    (w.set_position e nx ny).posOf e = some (nx, ny) := by
  obtain ⟨r, hg⟩ := get_position_of_posOf h
  rw [set_position_eq_store hg nx ny]
  exact posOf_store_position w e nx ny r

theorem posOf_set_position_other {w : World} {e x : Nat} (nx ny : Int) (hx : x ≠ e) :
    (w.set_position e nx ny).posOf x = w.posOf x := by
  unfold World.set_position
  cases hg : w.get_component e .position with
  | none => rfl
  | some c =>
    cases c
    case position px py pr =>
      unfold World.posOf
      rw [get_store_comp]
      simp [hx]
    all_goals rfl

theorem events_set_position (w : World) (e : Nat) (nx ny : Int) :
    (w.set_position e nx ny).events = w.events := by
  unfold World.set_position
  cases hg : w.get_component e .position with
  | none => rfl
  | some c => cases c <;> rfl

theorem is_position_blocked_find_some {w : World} {x y : Int} {mover b : Nat}
    (hfind : (w.rawQuery [.position, .blocksMovement]).find?
        (fun e => e ≠ mover && w.posAt e x y) = some b) :
    is_position_blocked w x y mover =
      (match w.get_component b .blocksMovement with
        | some (.blocksMovement bp bm bi) => blockGate w mover bp bm bi
        | _ => true) := by
  unfold is_position_blocked
  rw [hfind]

theorem process_movement_some {w : World} {entity : Nat} {mx my : Int}
    (h : w.posOf entity = some (mx, my)) (toPos : Int × Int) (roll : Int) :
    process_movement w entity toPos roll =
      (if !(w.has_component entity .movement) then (false, w)
        else if is_position_blocked w toPos.1 toPos.2 entity then
          match try_special_movement w entity toPos.1 toPos.2 roll with
          | (true, w1) => (true, w1.set_position entity toPos.1 toPos.2)
          | (false, w1) => (false, w1)
        else
          (true, (w.set_position entity toPos.1 toPos.2).add_event
            (.movementCompleted entity (mx, my) (toPos.1, toPos.2)))) := by
  unfold process_movement
  rw [h]

/-- C8: a move event whose destination cell is blocked for the mover's
category (per-category boolean gates) by a blocker without a Movable
component leaves the whole world unchanged — both entities keep their
positions and no event (in particular no "movement completed" event) is
emitted.  The hypotheses pin the destination's blockers down: the blocker
is the only Position + BlocksMovement entity standing at the destination,
its flag for the mover's category is set, and it has no Movable
component. -/
theorem C8_nonmovable_blocker (w : World) (m b : Nat) (tx ty : Int) (roll : Int)
    (huniq : ∀ x ∈ w.rawQuery [.position, .blocksMovement],
      w.posAt x tx ty = true → x = b)
    (hbpos : w.posOf b = some (tx, ty))
    (bp bm bi : Bool)
    (hbblocks : w.get_component b .blocksMovement = some (.blocksMovement bp bm bi))
    (hgate : blockGate w m bp bm bi = true)
    (hmov : w.get_component b .movable = none)
    (hne : b ≠ m) :
    process_movement w m (tx, ty) roll = (false, w) ∧
    (process_movement w m (tx, ty) roll).2.posOf m = w.posOf m ∧
    (process_movement w m (tx, ty) roll).2.posOf b = w.posOf b ∧
    (process_movement w m (tx, ty) roll).2.events = w.events := by
  have hbmem : b ∈ w.rawQuery [.position, .blocksMovement] := by
    obtain ⟨r, hg⟩ := get_position_of_posOf hbpos
    exact mem_rawQuery_pair hg hbblocks
  have hblocked : is_position_blocked w tx ty m = true := by
    have hfind : (w.rawQuery [.position, .blocksMovement]).find?
        (fun x => x ≠ m && w.posAt x tx ty) = some b := by
      apply find_first_of_unique hbmem
      · simp [hne, posAt_of_posOf hbpos]
      · intro x hx hpx
        simp only [Bool.and_eq_true, decide_eq_true_eq] at hpx
        exact huniq x hx hpx.2
    rw [is_position_blocked_find_some hfind, hbblocks]
    exact hgate
  have hspecial : try_special_movement w m tx ty roll = (false, w) := by
    unfold try_special_movement
    have hfind : (w.rawQuery [.position, .blocksMovement]).find?
        (fun x => w.posAt x tx ty && (w.get_component x .movable).isSome) = none := by
      rw [List.find?_eq_none]
      intro x hx
      by_cases hpx : w.posAt x tx ty = true
      · have hxb := huniq x hx hpx
        subst hxb
        simp [hmov, hpx]
      · simp only [Bool.and_eq_true, not_and]
        intro h
        exact absurd h hpx
    rw [hfind]
  have hmain : process_movement w m (tx, ty) roll = (false, w) := by
    cases hpm : w.posOf m with
    | none =>
      unfold process_movement
      rw [hpm]
    | some old =>
      obtain ⟨ox, oy⟩ := old
      rw [process_movement_some hpm (tx, ty) roll]
      by_cases hmv : w.has_component m .movement = true
      · rw [if_neg (by rw [hmv]; simp), if_pos hblocked, hspecial]
      · have hmv' : w.has_component m .movement = false := by
          cases h : w.has_component m .movement
          · rfl
          · exact absurd h hmv
        rw [if_pos (by rw [hmv']; simp)]
  exact ⟨hmain, by rw [hmain], by rw [hmain], by rw [hmain]⟩

/-- Witness for C8 on the concrete wall world: the mover stays at (0, 0),
the wall stays at (1, 0), and no event is emitted. -/
theorem C8_witness :
    process_movement wallWorld 0 (1, 0) 15 = (false, wallWorld) ∧
    (process_movement wallWorld 0 (1, 0) 15).2.posOf 0 = wallWorld.posOf 0 := by
  have h := C8_nonmovable_blocker wallWorld 0 1 1 0 15
    (by decide) (by decide) true true true (by decide) (by decide) (by decide)
    (by decide)
  exact ⟨h.1, h.2.1⟩

/-- C5 (amended): for a mover with Position, Movement and Stats whose move
event targets the cell of a movable obstruction (the only Position +
BlocksMovement entity at that cell, with the mover's category gate set and
a Movable component), the movement succeeds if and only if the push target
(the obstruction's cell mirrored one step further in the push direction)
is not blocked for the obstruction under the per-category gates and the
opposed roll `d20 + strength modifier >= push_difficulty` holds; on
success the obstruction is relocated to the push target first, the mover
takes the vacated cell, and a "pushed" event is appended; on a blocked
push target or failed roll the world is completely unchanged.  (The claim
as stated adds "and not occupied by another movable obstruction" — the
code has no such check; see the counterexample.)  Push resolution is one
obstruction deep: only the single found blocker is ever relocated. -/
theorem C5_push_resolution (w : World) (m o : Nat) (tx ty mx my : Int) (roll : Int)
    (hmpos : w.posOf m = some (mx, my))
    (hmmove : w.has_component m .movement = true)
    (st d2 co i2 wi ch : Int)
    (hmstats : w.get_component m .stats = some (.stats st d2 co i2 wi ch))
    (hopos : w.posOf o = some (tx, ty))
    (bp bm bi : Bool)
    (hoblocks : w.get_component o .blocksMovement = some (.blocksMovement bp bm bi))
    (hgate : blockGate w m bp bm bi = true)
    (pd : Int) (cbp : Bool)
    (homov : w.get_component o .movable = some (.movable pd cbp))
    (huniq : ∀ x ∈ w.rawQuery [.position, .blocksMovement],
      w.posAt x tx ty = true → x = o)
    (hne : o ≠ m) :
    ((process_movement w m (tx, ty) roll).1 = true ↔
      (is_position_blocked w (tx + (tx - mx)) (ty + (ty - my)) o = false ∧
        roll + statModifier st ≥ pd)) ∧
    ((is_position_blocked w (tx + (tx - mx)) (ty + (ty - my)) o = true ∨
        roll + statModifier st < pd) →
      process_movement w m (tx, ty) roll = (false, w)) ∧
    (is_position_blocked w (tx + (tx - mx)) (ty + (ty - my)) o = false →
      roll + statModifier st ≥ pd →
      (process_movement w m (tx, ty) roll).1 = true ∧
      (process_movement w m (tx, ty) roll).2.posOf o
        = some (tx + (tx - mx), ty + (ty - my)) ∧
      (process_movement w m (tx, ty) roll).2.posOf m = some (tx, ty) ∧
      (process_movement w m (tx, ty) roll).2.events
        = w.events ++ [.entityPushed m o (tx + (tx - mx), ty + (ty - my))]) := by
  have homem : o ∈ w.rawQuery [.position, .blocksMovement] := by
    obtain ⟨r, hg⟩ := get_position_of_posOf hopos
    exact mem_rawQuery_pair hg hoblocks
  have hblocked : is_position_blocked w tx ty m = true := by
    have hfind : (w.rawQuery [.position, .blocksMovement]).find?
        (fun x => x ≠ m && w.posAt x tx ty) = some o := by
      apply find_first_of_unique homem
      · simp [hne, posAt_of_posOf hopos]
      · intro x hx hpx
        simp only [Bool.and_eq_true, decide_eq_true_eq] at hpx
        exact huniq x hx hpx.2
    rw [is_position_blocked_find_some hfind, hoblocks]
    exact hgate
  have hspecial : try_special_movement w m tx ty roll
      = try_push_entity w m o tx ty roll := by
    unfold try_special_movement
    have hfind : (w.rawQuery [.position, .blocksMovement]).find?
        (fun x => w.posAt x tx ty && (w.get_component x .movable).isSome) = some o := by
      apply find_first_of_unique homem
      · simp [posAt_of_posOf hopos, homov]
      · intro x hx hpx
        simp only [Bool.and_eq_true] at hpx
        exact huniq x hx hpx.1
    rw [hfind]
  have hpush : try_push_entity w m o tx ty roll =
      if is_position_blocked w (tx + (tx - mx)) (ty + (ty - my)) o then (false, w)
      else if roll + statModifier st ≥ pd then
        (true, (w.set_position o (tx + (tx - mx)) (ty + (ty - my))).add_event
          (.entityPushed m o (tx + (tx - mx), ty + (ty - my))))
      else (false, w) := by
    unfold try_push_entity
    rw [hmpos, hopos, homov, hmstats]
  have hproc : process_movement w m (tx, ty) roll =
      (match try_push_entity w m o tx ty roll with
        | (true, w1) => (true, w1.set_position m tx ty)
        | (false, w1) => (false, w1)) := by
    rw [process_movement_some hmpos (tx, ty) roll,
      if_neg (by rw [hmmove]; simp), if_pos hblocked, hspecial]
  by_cases hb2 : is_position_blocked w (tx + (tx - mx)) (ty + (ty - my)) o = true
  · have hmain : process_movement w m (tx, ty) roll = (false, w) := by
      rw [hproc, hpush, if_pos hb2]
    refine ⟨?_, fun _ => hmain, fun h _ => absurd hb2 (by rw [h]; simp)⟩
    rw [hmain]
    simp [hb2]
  · have hb2' : is_position_blocked w (tx + (tx - mx)) (ty + (ty - my)) o = false := by
      cases h : is_position_blocked w (tx + (tx - mx)) (ty + (ty - my)) o
      · rfl
      · exact absurd h hb2
    by_cases hroll : roll + statModifier st ≥ pd
    · have hmain : process_movement w m (tx, ty) roll =
          (true, ((w.set_position o (tx + (tx - mx)) (ty + (ty - my))).add_event
            (.entityPushed m o (tx + (tx - mx), ty + (ty - my)))).set_position m tx ty) := by
        rw [hproc, hpush, if_neg hb2, if_pos hroll]
      have hposm : ((w.set_position o (tx + (tx - mx)) (ty + (ty - my))).add_event
          (.entityPushed m o (tx + (tx - mx), ty + (ty - my)))).posOf m
          = some (mx, my) := by
        rw [posOf_add_event, posOf_set_position_other _ _ (Ne.symm hne)]
        exact hmpos
      refine ⟨?_, ?_, fun _ _ => ⟨by rw [hmain], ?_, ?_, ?_⟩⟩
      · rw [hmain]
        simp [hb2', hroll]
      · rintro (h | h)
        · exact absurd h (by rw [hb2']; simp)
        · exact absurd hroll (not_le.2 h)
      · rw [hmain]
        simp only
        rw [posOf_set_position_other _ _ hne, posOf_add_event]
        exact posOf_set_position_self hopos _ _
      · rw [hmain]
        simp only
        exact posOf_set_position_self (p := (mx, my)) hposm tx ty
      · rw [hmain]
        simp only
        rw [events_set_position]
        show ((w.set_position o _ _).add_event _).events = _
        rw [World.add_event, events_set_position]
    · have hmain : process_movement w m (tx, ty) roll = (false, w) := by
        rw [hproc, hpush, if_neg hb2, if_neg hroll]
      refine ⟨?_, fun _ => hmain, fun _ h => absurd h hroll⟩
      rw [hmain]
      simp only [Bool.false_eq_true, false_iff, not_and]
      intro
      exact hroll

/-- C5 counterexample to the claim as stated: in `pushWorld` the push
target cell (2, 0) is occupied by entity 2, a "movable obstruction" in the
claim's own sense (an entity with a Movable component standing there), yet
the movement succeeds with roll 15 and the pushed blocker 1 lands on the
occupied cell: the source checks only `_is_position_blocked` for the
pushee, and entity 2 has no BlocksMovement component, so nothing blocks
the push — there is no separate "not occupied by another movable
obstruction" condition. -/
theorem C5_counterexample :
    (process_movement pushWorld 0 (1, 0) 15).1 = true ∧
    pushWorld.get_component 2 .movable = some (.movable 10 false) ∧
    pushWorld.posOf 2 = some (2, 0) ∧
    (2 : Nat) ≠ 1 ∧
    (process_movement pushWorld 0 (1, 0) 15).2.posOf 1 = some (2, 0) := by
  refine ⟨?_, ?_, ?_, ?_, ?_⟩ <;> decide

/-- Witness for C5 on `pushWorld`, matching the spec's worked example:
strength modifier +3 and push difficulty 10, so roll 15 succeeds and roll
2 fails with no state change. -/
theorem C5_witness :
    (process_movement pushWorld 0 (1, 0) 15).1 = true ∧
    process_movement pushWorld 0 (1, 0) 2 = (false, pushWorld) := by
  have h15 := C5_push_resolution pushWorld 0 1 1 0 0 0 15 (by decide) (by decide)
    16 10 10 10 10 10 (by decide) (by decide) true true false (by decide) (by decide)
    10 false (by decide) (by decide) (by decide)
  have h2 := C5_push_resolution pushWorld 0 1 1 0 0 0 2 (by decide) (by decide)
    16 10 10 10 10 10 (by decide) (by decide) true true false (by decide) (by decide)
    10 false (by decide) (by decide) (by decide)
  exact ⟨(h15.2.2 (by decide) (by decide)).1, h2.2.1 (Or.inr (by decide))⟩

/-- C9: an interaction event on a target whose Interactable requires
adjacency, with the actor at Chebyshev distance greater than 1, fails with
the "Too far away" reason and mutates nothing: the result world is the
input world with only the failure event appended — the component tables
are untouched and the target's usage counter is not incremented. -/
theorem C9_interaction_too_far (w : World) (a t : Nat) (itype : String)
    (canRep : Bool) (cnt maxInt : Int)
    (hint : w.get_component t .interactable
      = some (.interactable itype true canRep cnt maxInt))
    (pa pt : Int × Int)
    (hpa : w.posOf a = some pa) (hpt : w.posOf t = some pt)
    (hfar : 1 < distance_to pa pt) :
    process_interaction w a (some t)
      = (false, w.add_event (.interactionFailed a (some t) "Too far away")) ∧
    (process_interaction w a (some t)).2.comps = w.comps ∧
    (process_interaction w a (some t)).2.get_component t .interactable
      = some (.interactable itype true canRep cnt maxInt) := by
  have hadj : are_adjacent w a t = false := by
    unfold are_adjacent
    rw [hpa, hpt]
    simp [not_le.2 hfar]
  have heval : process_interaction w a (some t) =
      (match w.get_component t .interactable with
        | some (.interactable itype2 reqAdj canRep2 cnt2 maxInt2) =>
          if reqAdj && !(are_adjacent w a t) then
            (false, w.add_event (.interactionFailed a (some t) "Too far away"))
          else if maxInt2 ≥ 0 && cnt2 ≥ maxInt2 then
            (false, w.add_event (.interactionFailed a (some t) "No more uses"))
          else
            match process_specific_interaction w a t itype2 with
            | (true, w1) =>
              (true, (w1.store_comp t
                  (.interactable itype2 reqAdj canRep2 (cnt2 + 1) maxInt2)).add_event
                (.interactionSuccess a t itype2))
            | (false, w1) => (false, w1)
        | _ => (false, w.add_event (.interactionFailed a (some t) "Not interactable"))) := by
    unfold process_interaction
    rfl
  have heval2 : process_interaction w a (some t) =
      (if true && !(are_adjacent w a t) then
        (false, w.add_event (.interactionFailed a (some t) "Too far away"))
      else if maxInt ≥ 0 && cnt ≥ maxInt then
        (false, w.add_event (.interactionFailed a (some t) "No more uses"))
      else
        match process_specific_interaction w a t itype with
        | (true, w1) =>
          (true, (w1.store_comp t
              (.interactable itype true canRep (cnt + 1) maxInt)).add_event
            (.interactionSuccess a t itype))
        | (false, w1) => (false, w1)) := by
    rw [heval, hint]
  have hmain : process_interaction w a (some t)
      = (false, w.add_event (.interactionFailed a (some t) "Too far away")) := by
    rw [heval2, show (true && !(are_adjacent w a t)) = true by rw [hadj]; rfl]
    rw [if_pos rfl]
  refine ⟨hmain, by rw [hmain]; rfl, ?_⟩
  rw [hmain]
  exact hint

/-- Witness for C9 on the concrete world with the actor at distance 2. -/
theorem C9_witness :
    process_interaction interactWorld 0 (some 1)
      = (false, interactWorld.add_event (.interactionFailed 0 (some 1) "Too far away")) ∧
    (process_interaction interactWorld 0 (some 1)).2.comps = interactWorld.comps := by
  have h := C9_interaction_too_far interactWorld 0 1 "door" true 0 (-1)
    (by decide) (0, 0) (2, 0) (by decide) (by decide) (by decide)
  exact ⟨h.1, h.2.1⟩

theorem tag_setDuration (c : Comp) (d : Int) : (c.setDuration d).tag = c.tag := by
  cases c <;> rfl

theorem mem_dictSet_cases {α β : Type} [DecidableEq α] {l : List (α × β)} {a x : α}
    {b c : β} (h : (x, c) ∈ dictSet l a b) : (x, c) = (a, b) ∨ (x, c) ∈ l := by
  induction l with
  | nil => simpa [dictSet] using h
  | cons p rest ih =>
    obtain ⟨k, v⟩ := p
    by_cases hk : k = a
    · rw [dictSet, if_pos hk] at h
      rcases List.mem_cons.1 h with h | h
      · exact Or.inl h
      · exact Or.inr (List.mem_cons_of_mem _ h)
    · rw [dictSet, if_neg hk] at h
      rcases List.mem_cons.1 h with h | h
      · exact Or.inr (h ▸ List.mem_cons_self _ _)
      · rcases ih h with h | h
        · exact Or.inl h
        · exact Or.inr (List.mem_cons_of_mem _ h)

theorem mem_dictDel_subset {α β : Type} [DecidableEq α] {l : List (α × β)} {a x : α}
    {c : β} (h : (x, c) ∈ dictDel l a) : (x, c) ∈ l := by
  induction l with
  | nil => simpa [dictDel] using h
  | cons p rest ih =>
    obtain ⟨k, v⟩ := p
    by_cases hk : k = a
    · rw [dictDel, if_pos hk] at h
      exact List.mem_cons_of_mem _ h
    · rw [dictDel, if_neg hk] at h
      rcases List.mem_cons.1 h with h | h
      · exact h ▸ List.mem_cons_self _ _
      · exact List.mem_cons_of_mem _ (ih h)

theorem dictGet_eq_some_of_mem {α β : Type} [DecidableEq α] {l : List (α × β)} {a : α}
    {b : β} (hnd : (l.map Prod.fst).Nodup) (h : (a, b) ∈ l) : dictGet l a = some b := by
  induction l with
  | nil => simp at h
  | cons p rest ih =>
    obtain ⟨k, v⟩ := p
    simp only [List.map_cons, List.nodup_cons] at hnd
    rcases List.mem_cons.1 h with h | h
    · rw [show k = a from congrArg Prod.fst h.symm, dictGet_cons, if_pos rfl,
        show v = b from congrArg Prod.snd h.symm]
    · have hka : k ≠ a := by
        intro hk
        exact hnd.1 (hk ▸ List.mem_map.2 ⟨(a, b), h, rfl⟩)
      rw [dictGet_cons, if_neg hka]
      exact ih hnd.2 h

theorem foldl_invariant {α β : Type} (P : β → Prop) (f : β → α → β)
    (hstep : ∀ b a, P b → P (f b a)) :
    ∀ (l : List α) (b : β), P b → P (l.foldl f b) := by
  intro l
  induction l with
  | nil => exact fun b hb => hb
  | cons a l ih => exact fun b hb => ih (f b a) (hstep b a hb)

theorem foldl_invariant_mem {α β : Type} (P : β → Prop) (f : β → α → β) (l : List α)
    (hstep : ∀ b a, a ∈ l → P b → P (f b a)) :
    ∀ b, P b → P (l.foldl f b) := by
  induction l with
  | nil => exact fun b hb => hb
  | cons a l ih =>
    intro b hb
    exact ih (fun b' a' ha' hb' => hstep b' a' (List.mem_cons_of_mem _ ha') hb')
      (f b a) (hstep b a (List.mem_cons_self _ _) hb)

theorem tagok_of_wf {w : World} (hw : WF w) : TagOK w := by
  intro u d x c hd hm
  exact hw.tags u d x c hd (dictGet_eq_some_of_mem (hw.inner_nodup u d hd) hm)

theorem nodupkeys_of_wf {w : World} (hw : WF w) : NodupKeys w := by
  intro u
  unfold World.keysOf
  cases hd : dictGet w.comps u with
  | none => simp
  | some d => exact hw.inner_nodup u d hd

theorem tag_of_get {w : World} (hTag : TagOK w) {e : Nat} {t : CTag} {c : Comp}
    (hc : w.get_component e t = some c) : c.tag = t := by
  unfold World.get_component at hc
  cases hd : dictGet w.comps t with
  | none => rw [hd] at hc; exact absurd hc (by simp)
  | some d =>
    rw [hd] at hc
    exact hTag t d e c hd (mem_of_dictGet_eq_some hc)

theorem getD_keys_nodup {w : World} (hw : NodupKeys w) (t : CTag) :
    (((dictGet w.comps t).getD []).map Prod.fst).Nodup := by
  have h := hw t
  unfold World.keysOf at h
  cases hd : dictGet w.comps t with
  | none => simp
  | some d => rw [hd] at h; simpa using h

theorem keysOf_store_comp (w : World) (e : Nat) (c : Comp) (u : CTag) :
    (w.store_comp e c).keysOf u =
      if u = c.tag then (dictSet ((dictGet w.comps c.tag).getD []) e c).map Prod.fst
      else w.keysOf u := by
  unfold World.keysOf World.store_comp
  by_cases hu : u = c.tag
  · subst hu
    rw [if_pos rfl]
    simp [dictGet_dictSet_self]
  · rw [if_neg hu]
    simp only
    rw [dictGet_dictSet_ne _ _ _ _ hu]

theorem tagok_store_comp {w : World} (hw : TagOK w) (e : Nat) (c : Comp) :
    TagOK (w.store_comp e c) := by
  intro u d2 x cx hd2 hm
  unfold World.store_comp at hd2
  simp only at hd2
  rcases dictGet_dictSet_cases hd2 with ⟨hu, hdv⟩ | ⟨hu, hdv⟩
  · subst hdv
    rcases mem_dictSet_cases hm with h | h
    · rw [show cx = c from congrArg Prod.snd h]
      exact hu.symm
    · cases horig : dictGet w.comps c.tag with
      | none => rw [horig] at h; simp at h
      | some d0 =>
        rw [horig] at h
        simp only [Option.getD_some] at h
        exact (hw c.tag d0 x cx horig h).trans hu.symm
  · exact hw u d2 x cx hdv hm

theorem nodup_store_comp {w : World} (hw : NodupKeys w) (e : Nat) (c : Comp) :
    NodupKeys (w.store_comp e c) := by
  intro u
  rw [keysOf_store_comp]
  by_cases hu : u = c.tag
  · rw [if_pos hu]
    exact keys_dictSet_nodup _ e c (getD_keys_nodup hw c.tag)
  · rw [if_neg hu]
    exact hw u

/-- Full behaviour of `remove_component`: the call never raises, entries of
other entities and other types are untouched, the removed slot reads
`none` afterwards (given duplicate-free keys), keys of other types are
unchanged, key-nodup is preserved, and every surviving entry was already
present. -/
theorem remove_component_spec (w : World) (e : Nat) (t : CTag) :
    ∃ b w', w.remove_component e t = .ok (b, w') ∧
      (∀ x u, x ≠ e → w'.get_component x u = w.get_component x u) ∧
      (∀ u, u ≠ t → w'.get_component e u = w.get_component e u) ∧
      ((w.keysOf t).Nodup → w'.get_component e t = none) ∧
      (∀ u, u ≠ t → w'.keysOf u = w.keysOf u) ∧
      ((w.keysOf t).Nodup → (w'.keysOf t).Nodup) ∧
      (∀ u d2 x c, dictGet w'.comps u = some d2 → (x, c) ∈ d2 →
        ∃ d0, dictGet w.comps u = some d0 ∧ (x, c) ∈ d0) := by
  cases hd : dictGet w.comps t with
  | none =>
    have heval : w.remove_component e t = .ok (false, w) := by
      unfold World.remove_component
      rw [hd]
    refine ⟨false, w, heval, fun _ _ _ => rfl, fun _ _ => rfl, ?_, fun _ _ => rfl,
      fun h => h, fun u d2 x c h1 h2 => ⟨d2, h1, h2⟩⟩
    intro _
    unfold World.get_component
    rw [hd]
  | some d =>
    have heval : w.remove_component e t =
        (match dictGet d e with
          | none => Except.ok (false, w)
          | some _ => Except.ok (true,
              ({w with comps := (dictSet w.comps t (dictDel d e))}).invalidate_cache)) := by
      unfold World.remove_component
      rw [hd]
    cases hde : dictGet d e with
    | none =>
      rw [hde] at heval
      refine ⟨false, w, heval, fun _ _ _ => rfl, fun _ _ => rfl, ?_, fun _ _ => rfl,
        fun h => h, fun u d2 x c h1 h2 => ⟨d2, h1, h2⟩⟩
      intro _
      unfold World.get_component
      rw [hd]
      exact hde
    | some c0 =>
      rw [hde] at heval
      refine ⟨true, _, heval, ?_, ?_, ?_, ?_, ?_, ?_⟩
      · intro x u hx
        rw [get_component_eq_getD, get_component_eq_getD]
        unfold World.invalidate_cache
        simp only
        by_cases hu : u = t
        · subst hu
          rw [dictGet_dictSet_self, hd]
          simp only [Option.getD_some]
          exact dictGet_dictDel_ne d e x hx
        · rw [dictGet_dictSet_ne _ _ _ _ hu]
      · intro u hu
        rw [get_component_eq_getD, get_component_eq_getD]
        unfold World.invalidate_cache
        simp only
        rw [dictGet_dictSet_ne _ _ _ _ hu]
      · intro hnd
        rw [get_component_eq_getD]
        unfold World.invalidate_cache
        simp only
        rw [dictGet_dictSet_self]
        simp only [Option.getD_some]
        apply dictGet_dictDel_self
        unfold World.keysOf at hnd
        rw [hd] at hnd
        exact hnd
      · intro u hu
        unfold World.keysOf World.invalidate_cache
        simp only
        rw [dictGet_dictSet_ne _ _ _ _ hu]
      · intro hnd
        unfold World.keysOf at hnd
        rw [hd] at hnd
        unfold World.keysOf World.invalidate_cache
        simp only
        rw [dictGet_dictSet_self]
        exact keys_dictDel_nodup d e hnd
      · intro u d2 x c h1 h2
        unfold World.invalidate_cache at h1
        simp only at h1
        rcases dictGet_dictSet_cases h1 with ⟨hu, hdv⟩ | ⟨hu, hdv⟩
        · subst hdv
          exact ⟨d, hu ▸ hd, mem_dictDel_subset h2⟩
        · exact ⟨d2, hdv, h2⟩

theorem update_one_duration_other (t : CTag) (w : World) (e' x : Nat) (u : CTag)
    (hx : x ≠ e') :
    (update_one_duration t w e').get_component x u = w.get_component x u := by
  unfold update_one_duration
  split
  · rename_i c hc
    split
    · rename_i d hd
      split
      · have hst : (w.store_comp e' (c.setDuration (d - 1))).get_component x u
            = w.get_component x u := by
          rw [get_store_comp]
          by_cases h1 : u = (c.setDuration (d - 1)).tag
          · rw [if_pos h1, if_neg hx]
          · rw [if_neg h1]
        split
        · obtain ⟨b, w', heq, hf1, hf2, hf3, hf4, hf5, hf6⟩ :=
            remove_component_spec (w.store_comp e' (c.setDuration (d - 1))) e' t
          dsimp only
          rw [heq]
          show w'.get_component x u = w.get_component x u
          rw [hf1 x u hx]
          exact hst
        · exact hst
      · rfl
    · rfl
  · rfl

theorem update_one_duration_other_tag (t : CTag) (w : World) (e' x : Nat) (u : CTag)
    (hu : u ≠ t) (hTag : TagOK w) :
    (update_one_duration t w e').get_component x u = w.get_component x u := by
  unfold update_one_duration
  split
  · rename_i c hc
    have hct : c.tag = t := tag_of_get hTag hc
    split
    · rename_i d hd
      split
      · have htag2 : (c.setDuration (d - 1)).tag = t := by rw [tag_setDuration, hct]
        have hst : (w.store_comp e' (c.setDuration (d - 1))).get_component x u
            = w.get_component x u := by
          rw [get_store_comp, htag2, if_neg hu]
        split
        · obtain ⟨b, w', heq, hf1, hf2, hf3, hf4, hf5, hf6⟩ :=
            remove_component_spec (w.store_comp e' (c.setDuration (d - 1))) e' t
          dsimp only
          rw [heq]
          show w'.get_component x u = w.get_component x u
          by_cases hxe : x = e'
          · subst hxe
            rw [hf2 u hu]
            exact hst
          · rw [hf1 x u hxe]
            exact hst
        · exact hst
      · rfl
    · rfl
  · rfl

theorem tagok_update_one_duration (t : CTag) {w : World} (hTag : TagOK w) (e' : Nat) :
    TagOK (update_one_duration t w e') := by
  unfold update_one_duration
  split
  · rename_i c hc
    split
    · rename_i d hd
      split
      · have hst : TagOK (w.store_comp e' (c.setDuration (d - 1))) :=
          tagok_store_comp hTag e' (c.setDuration (d - 1))
        split
        · obtain ⟨b, w', heq, hf1, hf2, hf3, hf4, hf5, hf6⟩ :=
            remove_component_spec (w.store_comp e' (c.setDuration (d - 1))) e' t
          dsimp only
          rw [heq]
          show TagOK w'
          intro u d2 x cx hd2 hm
          obtain ⟨d0, hd0, hm0⟩ := hf6 u d2 x cx hd2 hm
          exact hst u d0 x cx hd0 hm0
        · exact hst
      · exact hTag
    · exact hTag
  · exact hTag

theorem nodup_update_one_duration (t : CTag) {w : World} (hTag : TagOK w)
    (hNd : NodupKeys w) (e' : Nat) :
    NodupKeys (update_one_duration t w e') := by
  unfold update_one_duration
  split
  · rename_i c hc
    have hct : c.tag = t := tag_of_get hTag hc
    split
    · rename_i d hd
      split
      · have hst : NodupKeys (w.store_comp e' (c.setDuration (d - 1))) :=
          nodup_store_comp hNd e' (c.setDuration (d - 1))
        split
        · obtain ⟨b, w', heq, hf1, hf2, hf3, hf4, hf5, hf6⟩ :=
            remove_component_spec (w.store_comp e' (c.setDuration (d - 1))) e' t
          dsimp only
          rw [heq]
          show NodupKeys w'
          intro u
          by_cases hu : u = t
          · subst hu
            exact hf5 (hst u)
          · rw [hf4 u hu]
            exact hst u
        · exact hst
      · exact hNd
    · exact hNd
  · exact hNd

theorem update_one_duration_self (t : CTag) {w : World} {e : Nat} {c : Comp} {n : Int}
    (hTag : TagOK w) (hNd : NodupKeys w)
    (hc : w.get_component e t = some c) (hdur : c.duration = some n) (hperm : n ≠ -1) :
    (update_one_duration t w e).get_component e t
      = if n - 1 = 0 then none else some (c.setDuration (n - 1)) := by
  have hct : c.tag = t := tag_of_get hTag hc
  unfold update_one_duration
  split
  · rename_i c2 hc2
    have hceq : c2 = c := by
      have h := hc.symm.trans hc2
      injection h with h
      exact h.symm
    rw [hceq]
    split
    · rename_i d hd
      have hdeq : d = n := by
        have h := hdur.symm.trans hd
        injection h with h
        exact h.symm
      rw [hdeq]
      split
      · have hw1get : (w.store_comp e (c.setDuration (n - 1))).get_component e t
            = some (c.setDuration (n - 1)) := by
          rw [get_store_comp, tag_setDuration, hct, if_pos rfl, if_pos rfl]
        split
        · rename_i h0
          obtain ⟨b, w', heq, hf1, hf2, hf3, hf4, hf5, hf6⟩ :=
            remove_component_spec (w.store_comp e (c.setDuration (n - 1))) e t
          dsimp only
          rw [heq]
          show w'.get_component e t = none
          exact hf3 (nodup_store_comp hNd e (c.setDuration (n - 1)) t)
        · rename_i h0
          exact hw1get
      · rename_i h
        exact absurd (by simpa using h) hperm
    · rename_i hd
      rw [hdur] at hd
      exact absurd hd (by simp)
  · rename_i hc2
    rw [hc] at hc2
    exact absurd hc2 (by simp)

theorem durPass_other_tag (t' : CTag) {w : World} (hTag : TagOK w) (hNd : NodupKeys w)
    (t : CTag) (hne : t ≠ t') (x : Nat) :
    (durPass t' w).get_component x t = w.get_component x t ∧
    TagOK (durPass t' w) ∧ NodupKeys (durPass t' w) := by
  unfold durPass
  exact foldl_invariant (fun acc =>
      acc.get_component x t = w.get_component x t ∧ TagOK acc ∧ NodupKeys acc)
    (fun acc2 e => update_one_duration t' acc2 e)
    (fun b a hb => ⟨(update_one_duration_other_tag t' b a x t hne hb.2.1).trans hb.1,
      tagok_update_one_duration t' hb.2.1 a,
      nodup_update_one_duration t' hb.2.1 hb.2.2 a⟩)
    (w.rawQuery [t']) w ⟨rfl, hTag, hNd⟩

theorem durPass_inv (t' : CTag) {w : World} (hTag : TagOK w) (hNd : NodupKeys w) :
    TagOK (durPass t' w) ∧ NodupKeys (durPass t' w) := by
  unfold durPass
  exact foldl_invariant (fun acc => TagOK acc ∧ NodupKeys acc)
    (fun acc2 e => update_one_duration t' acc2 e)
    (fun b a hb => ⟨tagok_update_one_duration t' hb.1 a,
      nodup_update_one_duration t' hb.1 hb.2 a⟩)
    (w.rawQuery [t']) w ⟨hTag, hNd⟩

theorem durPass_self (t : CTag) {w : World} (hTag : TagOK w) (hNd : NodupKeys w)
    {e : Nat} {c : Comp} {n : Int}
    (hc : w.get_component e t = some c) (hdur : c.duration = some n) (hperm : n ≠ -1) :
    (durPass t w).get_component e t
      = if n - 1 = 0 then none else some (c.setDuration (n - 1)) := by
  have hes : w.rawQuery [t] = w.keysOf t := rfl
  have hmem : e ∈ w.rawQuery [t] := by
    rw [hes]
    exact keysOf_mem_of_get_component hc
  have hnd0 : (w.rawQuery [t]).Nodup := by
    rw [hes]
    exact hNd t
  obtain ⟨l1, l2, hsplit⟩ := List.append_of_mem hmem
  have hnd' := hsplit ▸ hnd0
  rw [List.nodup_append] at hnd'
  obtain ⟨hnd1, hnd2, hdisj⟩ := hnd'
  rw [List.nodup_cons] at hnd2
  have hne1 : e ∉ l1 := fun hm => hdisj hm (by simp)
  have hne2 : e ∉ l2 := hnd2.1
  unfold durPass
  rw [hsplit, List.foldl_append, List.foldl_cons]
  have hA := foldl_invariant_mem (fun acc =>
      acc.get_component e t = some c ∧ TagOK acc ∧ NodupKeys acc)
    (fun acc2 x => update_one_duration t acc2 x) l1
    (fun b a ha hb => ⟨(update_one_duration_other t b a e t
        (fun h => hne1 (h ▸ ha))).trans hb.1,
      tagok_update_one_duration t hb.2.1 a,
      nodup_update_one_duration t hb.2.1 hb.2.2 a⟩)
    w ⟨hc, hTag, hNd⟩
  obtain ⟨hA1, hA2, hA3⟩ := hA
  have hB := update_one_duration_self t hA2 hA3 hA1 hdur hperm
  have hC := foldl_invariant_mem (fun acc =>
      acc.get_component e t
        = (if n - 1 = 0 then none else some (c.setDuration (n - 1)))
      ∧ TagOK acc ∧ NodupKeys acc)
    (fun acc2 x => update_one_duration t acc2 x) l2
    (fun b a ha hb => ⟨(update_one_duration_other t b a e t
        (fun h => hne2 (h ▸ ha))).trans hb.1,
      tagok_update_one_duration t hb.2.1 a,
      nodup_update_one_duration t hb.2.1 hb.2.2 a⟩)
    (update_one_duration t (l1.foldl (fun acc2 x => update_one_duration t acc2 x) w) e)
    ⟨hB, tagok_update_one_duration t hA2 e, nodup_update_one_duration t hA2 hA3 e⟩
  exact hC.1

/-- The duration pass of the status-effect ticker: a non-permanent effect
instance of any status class is decremented in place, and removed from its
entity exactly when the decrement reaches 0. -/
theorem update_effect_durations_get {w : World} (hTag : TagOK w) (hNd : NodupKeys w)
    {t : CTag} (ht : t ∈ statusTags) {e : Nat} {c : Comp} {n : Int}
    (hc : w.get_component e t = some c) (hdur : c.duration = some n) (hperm : n ≠ -1) :
    (update_effect_durations w).get_component e t
      = if n - 1 = 0 then none else some (c.setDuration (n - 1)) := by
  have hdef : update_effect_durations w
      = durPass .wet (durPass .cursed (durPass .blessed (durPass .onFire
          (durPass .poisoned w)))) := rfl
  rw [hdef]
  have ht5 : t = CTag.poisoned ∨ t = CTag.onFire ∨ t = CTag.blessed ∨
      t = CTag.cursed ∨ t = CTag.wet := by
    simpa [statusTags] using ht
  rcases ht5 with rfl | rfl | rfl | rfl | rfl
  · have hself := durPass_self .poisoned hTag hNd hc hdur hperm
    obtain ⟨hT1, hN1⟩ := durPass_inv .poisoned hTag hNd
    obtain ⟨hf2, hT2, hN2⟩ := durPass_other_tag .onFire hT1 hN1 .poisoned (by decide) e
    obtain ⟨hf3, hT3, hN3⟩ := durPass_other_tag .blessed hT2 hN2 .poisoned (by decide) e
    obtain ⟨hf4, hT4, hN4⟩ := durPass_other_tag .cursed hT3 hN3 .poisoned (by decide) e
    obtain ⟨hf5, -, -⟩ := durPass_other_tag .wet hT4 hN4 .poisoned (by decide) e
    rw [hf5, hf4, hf3, hf2]
    exact hself
  · obtain ⟨hf1, hT1, hN1⟩ := durPass_other_tag .poisoned hTag hNd .onFire (by decide) e
    have hself := durPass_self .onFire hT1 hN1 (hf1.trans hc) hdur hperm
    obtain ⟨hT2, hN2⟩ := durPass_inv .onFire hT1 hN1
    obtain ⟨hf3, hT3, hN3⟩ := durPass_other_tag .blessed hT2 hN2 .onFire (by decide) e
    obtain ⟨hf4, hT4, hN4⟩ := durPass_other_tag .cursed hT3 hN3 .onFire (by decide) e
    obtain ⟨hf5, -, -⟩ := durPass_other_tag .wet hT4 hN4 .onFire (by decide) e
    rw [hf5, hf4, hf3]
    exact hself
  · obtain ⟨hf1, hT1, hN1⟩ := durPass_other_tag .poisoned hTag hNd .blessed (by decide) e
    obtain ⟨hf2, hT2, hN2⟩ := durPass_other_tag .onFire hT1 hN1 .blessed (by decide) e
    have hself := durPass_self .blessed hT2 hN2 (hf2.trans (hf1.trans hc)) hdur hperm
    obtain ⟨hT3, hN3⟩ := durPass_inv .blessed hT2 hN2
    obtain ⟨hf4, hT4, hN4⟩ := durPass_other_tag .cursed hT3 hN3 .blessed (by decide) e
    obtain ⟨hf5, -, -⟩ := durPass_other_tag .wet hT4 hN4 .blessed (by decide) e
    rw [hf5, hf4]
    exact hself
  · obtain ⟨hf1, hT1, hN1⟩ := durPass_other_tag .poisoned hTag hNd .cursed (by decide) e
    obtain ⟨hf2, hT2, hN2⟩ := durPass_other_tag .onFire hT1 hN1 .cursed (by decide) e
    obtain ⟨hf3, hT3, hN3⟩ := durPass_other_tag .blessed hT2 hN2 .cursed (by decide) e
    have hself := durPass_self .cursed hT3 hN3 (hf3.trans (hf2.trans (hf1.trans hc)))
      hdur hperm
    obtain ⟨hT4, hN4⟩ := durPass_inv .cursed hT3 hN3
    obtain ⟨hf5, -, -⟩ := durPass_other_tag .wet hT4 hN4 .cursed (by decide) e
    rw [hf5]
    exact hself
  · obtain ⟨hf1, hT1, hN1⟩ := durPass_other_tag .poisoned hTag hNd .wet (by decide) e
    obtain ⟨hf2, hT2, hN2⟩ := durPass_other_tag .onFire hT1 hN1 .wet (by decide) e
    obtain ⟨hf3, hT3, hN3⟩ := durPass_other_tag .blessed hT2 hN2 .wet (by decide) e
    obtain ⟨hf4, hT4, hN4⟩ := durPass_other_tag .cursed hT3 hN3 .wet (by decide) e
    exact durPass_self .wet hT4 hN4
      (hf4.trans (hf3.trans (hf2.trans (hf1.trans hc)))) hdur hperm

theorem events_add_component_total (w : World) (e : Nat) (c : Comp) :
    (w.add_component_total e c).events = w.events := by
  unfold World.add_component_total
  by_cases he : e ∈ w.entities
  · rw [add_component_of_mem he c]
    rfl
  · unfold World.add_component
    rw [if_neg he]

theorem get_add_component_total (w : World) (e : Nat) (c : Comp) (x : Nat) (u : CTag) :
    (w.add_component_total e c).get_component x u =
      if e ∈ w.entities then (w.store_comp e c).get_component x u
      else w.get_component x u := by
  unfold World.add_component_total
  by_cases he : e ∈ w.entities
  · rw [add_component_of_mem he c, if_pos he]
    rfl
  · rw [if_neg he]
    unfold World.add_component
    rw [if_neg he]

theorem try_spread_fire_events (w : World) (b : Nat) (ig : Nat → Bool) :
    (try_spread_fire w b ig).events = w.events := by
  unfold try_spread_fire
  split
  · rfl
  · rename_i p hp
    apply foldl_invariant (fun (acc : World) => acc.events = w.events)
    · intro acc d hacc
      apply foldl_invariant (fun (acc2 : World) => acc2.events = w.events)
      · intro acc2 ne hacc2
        by_cases h1 : (acc2.posAt ne (p.1 + d.1) (p.2 + d.2)
            && !(acc2.has_component ne .onFire)) = true
        · rw [if_pos h1]
          by_cases h2 : ig ne = true
          · rw [if_pos h2]
            split
            · rw [events_add_component_total]
              exact hacc2
            · exact hacc2
          · rw [if_neg h2]
            exact hacc2
        · rw [if_neg h1]
          exact hacc2
      · exact hacc
    · rfl

theorem try_spread_onFire_frame (w : World) (b : Nat) (ig : Nat → Bool) (x : Nat)
    (h : (w.get_component x .onFire).isSome = true) :
    (try_spread_fire w b ig).get_component x .onFire
      = w.get_component x .onFire := by
  unfold try_spread_fire
  split
  · rfl
  · rename_i p hp
    apply foldl_invariant (fun (acc : World) =>
      acc.get_component x .onFire = w.get_component x .onFire)
    · intro acc d hacc
      apply foldl_invariant (fun (acc2 : World) =>
        acc2.get_component x .onFire = w.get_component x .onFire)
      · intro acc2 ne hacc2
        by_cases hex : ne = x
        · subst hex
          have hhas : acc2.has_component ne .onFire = true := by
            rw [has_component_eq_isSome, hacc2]
            exact h
          rw [if_neg (by rw [hhas]; simp)]
          exact hacc2
        · by_cases h1 : (acc2.posAt ne (p.1 + d.1) (p.2 + d.2)
              && !(acc2.has_component ne .onFire)) = true
          · rw [if_pos h1]
            by_cases h2 : ig ne = true
            · rw [if_pos h2]
              split
              · rw [get_add_component_total]
                by_cases he : ne ∈ acc2.entities
                · rw [if_pos he, get_store_comp]
                  simp only [Comp.tag]
                  rw [if_pos trivial, if_neg (fun hh => hex hh.symm)]
                  exact hacc2
                · rw [if_neg he]
                  exact hacc2
              · exact hacc2
            · rw [if_neg h2]
              exact hacc2
          · rw [if_neg h1]
            exact hacc2
      · exact hacc
    · rfl

theorem fire_step_onFire_frame (spread ignite : Nat → Bool) (acc : World) (e' x : Nat)
    (h : (acc.get_component x .onFire).isSome = true) :
    (fire_step spread ignite acc e').get_component x .onFire
      = acc.get_component x .onFire := by
  unfold fire_step
  split
  · rename_i d i src fd hc
    by_cases hd : d ≠ 0
    · rw [if_pos hd]
      by_cases hs : spread e' = true
      · rw [if_pos hs]
        have h' : ((acc.add_event (.damage e' fd "fire" src)).get_component
            x .onFire).isSome = true := by
          rw [get_component_add_event]
          exact h
        rw [try_spread_onFire_frame _ _ _ _ h', get_component_add_event]
      · rw [if_neg hs]
        rw [get_component_add_event]
    · rw [if_neg hd]
  · rfl

theorem fire_step_events (spread ignite : Nat → Bool) (acc : World) (e' : Nat) :
    ∃ new, (fire_step spread ignite acc e').events = acc.events ++ new := by
  unfold fire_step
  split
  · rename_i d i src fd hc
    by_cases hd : d ≠ 0
    · rw [if_pos hd]
      by_cases hs : spread e' = true
      · rw [if_pos hs]
        exact ⟨[.damage e' fd "fire" src], by rw [try_spread_fire_events]; rfl⟩
      · rw [if_neg hs]
        exact ⟨[.damage e' fd "fire" src], rfl⟩
    · rw [if_neg hd]
      exact ⟨[], by simp⟩
  · exact ⟨[], by simp⟩

theorem fire_step_eval (spread ignite : Nat → Bool) (acc : World) (e : Nat)
    {n inten : Int} {src : Option Nat} {fd : Int}
    (h : acc.get_component e .onFire = some (.onFire n inten src fd)) :
    fire_step spread ignite acc e =
      if n ≠ 0 then
        (if spread e = true then
          try_spread_fire (acc.add_event (.damage e fd "fire" src)) e ignite
        else acc.add_event (.damage e fd "fire" src))
      else acc := by
  unfold fire_step
  rw [h]

/-- The fire pass enqueues the fire `DamageEvent` for every burning entity
with health whose effect is not expired — including the tick on which the
duration is about to reach 0. -/
theorem process_fire_applies_damage {w : World} (spread ignite : Nat → Bool) {e : Nat}
    {n inten : Int} {src : Option Nat} {fd : Int}
    (hc : w.get_component e .onFire = some (.onFire n inten src fd)) (hn : n ≠ 0)
    (hh : w.has_component e .health = true) :
    Event.damage e fd "fire" src ∈ (process_fire w spread ignite).events := by
  have hmem : e ∈ w.rawQuery [.onFire, .health] := by
    rw [mem_rawQuery]
    refine ⟨by simp, fun u hu => ?_⟩
    rcases List.mem_cons.1 hu with rfl | hu
    · exact keysOf_mem_of_get_component hc
    · rcases List.mem_singleton.1 hu with rfl
      exact (mem_keysOf_iff_has w e .health).2 hh
  obtain ⟨l1, l2, hsplit⟩ := List.append_of_mem hmem
  unfold process_fire
  rw [hsplit, List.foldl_append, List.foldl_cons]
  have hA : (List.foldl (fire_step spread ignite) w l1).get_component e .onFire
      = some (.onFire n inten src fd) :=
    foldl_invariant (fun (acc : World) =>
        acc.get_component e .onFire = some (.onFire n inten src fd))
      (fire_step spread ignite)
      (fun b a hb => (fire_step_onFire_frame spread ignite b a e
          (by rw [hb]; rfl)).trans hb)
      l1 w hc
  rw [fire_step_eval spread ignite _ e hA, if_pos hn]
  have hbase : Event.damage e fd "fire" src ∈
      ((if spread e = true then
          try_spread_fire ((List.foldl (fire_step spread ignite) w l1).add_event
            (.damage e fd "fire" src)) e ignite
        else (List.foldl (fire_step spread ignite) w l1).add_event
          (.damage e fd "fire" src))).events := by
    by_cases hs : spread e = true
    · rw [if_pos hs, try_spread_fire_events]
      simp [World.add_event]
    · rw [if_neg hs]
      simp [World.add_event]
  exact foldl_invariant (fun (acc : World) => Event.damage e fd "fire" src ∈ acc.events)
    (fire_step spread ignite)
    (fun b a hb => by
      obtain ⟨new, hnew⟩ := fire_step_events spread ignite b a
      rw [hnew]
      exact List.mem_append.2 (Or.inl hb))
    l2 _ hbase

/-- C6: in the concrete scenario, a fire effect with duration 3 attached to
an entity with health deals its damage on three consecutive
`StatusEffectSystem` ticks (the damage event is in the queue mid-tick,
before `update` clears it), with its duration decremented to 2, 1 and then
removed at the third tick, and neither the component nor any further fire
damage exists on the fourth tick; in general, on every reachable world any
non-permanent (`duration != -1`) status-effect instance has its duration
decremented by 1 by the effect-durations pass and is removed in the same
pass exactly when the decrement reaches 0, and a burning entity with
health still receives its fire `DamageEvent` on the tick its duration is
about to reach 0. -/
theorem C6_fire_duration {w : World} (hr : Reach w) {e : Nat} {t : CTag} {c : Comp}
    {n : Int} (ht : t ∈ statusTags) (hc : w.get_component e t = some c)
    (hd : c.duration = some n) (hp : n ≠ -1) :
    ((status_update noDraw noDraw fireWorld).events
        = [Event.damage 0 2 "fire" none]
      ∧ (fireTick fireWorld).get_component 0 CTag.onFire
          = some (Comp.onFire 2 1 none 2)
      ∧ (status_update noDraw noDraw (fireTick fireWorld)).events
          = [Event.damage 0 2 "fire" none]
      ∧ (fireTick (fireTick fireWorld)).get_component 0 CTag.onFire
          = some (Comp.onFire 1 1 none 2)
      ∧ (status_update noDraw noDraw (fireTick (fireTick fireWorld))).events
          = [Event.damage 0 2 "fire" none]
      ∧ (fireTick (fireTick (fireTick fireWorld))).get_component 0 CTag.onFire
          = none
      ∧ (status_update noDraw noDraw
            (fireTick (fireTick (fireTick fireWorld)))).events = [])
    ∧ (update_effect_durations w).get_component e t
        = (if n - 1 = 0 then none else some (c.setDuration (n - 1)))
    ∧ (∀ (spread ignite : Nat → Bool) (inten : Int) (src : Option Nat) (fd : Int),
        c = Comp.onFire n inten src fd → n ≠ 0 →
        w.has_component e CTag.health = true →
        Event.damage e fd "fire" src ∈ (process_fire w spread ignite).events) := by
  have hwf := reach_wf hr
  refine ⟨⟨rfl, rfl, rfl, rfl, rfl, rfl, rfl⟩, ?_, ?_⟩
  · exact update_effect_durations_get (tagok_of_wf hwf) (nodupkeys_of_wf hwf)
      ht hc hd hp
  · intro spread ignite inten src fd hceq hn hh
    have ht' : t = CTag.onFire := by
      have htag := tag_of_get (tagok_of_wf hwf) hc
      rw [hceq] at htag
      exact htag.symm
    subst ht'
    rw [hceq] at hc
    exact process_fire_applies_damage spread ignite hc hn hh

theorem C6_witness :
    (update_effect_durations fireWorld).get_component 0 CTag.onFire
        = some (Comp.onFire 2 1 none 2)
    ∧ Event.damage 0 2 "fire" none ∈ (process_fire fireWorld noDraw noDraw).events := by
  have hr : Reach fireWorld :=
    Reach.addComp 0 (Comp.onFire 3 1 none 2)
      (Reach.addComp 0 (Comp.health 10 10) (Reach.create 0 Reach.init) rfl) rfl
  have h := C6_fire_duration hr (e := 0) (t := CTag.onFire)
    (c := Comp.onFire 3 1 none 2) (n := 3) (by decide) rfl rfl (by decide)
  constructor
  · have hb := h.2.1
    rw [if_neg (by decide)] at hb
    exact hb
  · exact h.2.2 noDraw noDraw 1 none 2 rfl (by decide) rfl

end Ecs
